import Mathlib

/-!
Verification development for the stateful MCP calculator server
(streamable-HTTP transport): a shallow embedding of its session store,
event store and session-coordination logic, with theorems about the
session-lifecycle and resumability properties the design documents state.

Sources embedded here:
  * `src/server.ts` (namespace `Server`): the production server with the
    hybrid storage architecture (in-memory / Redis strategy pattern);
  * the simpler single-file reference server (namespace `SimpleServer`),
    whose in-memory event store differs only in how it recovers the
    stream id from an event id;
  * `src/types.ts`: the durable data contracts and the error hierarchy.

Modelling conventions:
  * JS strings that take part in ordering comparisons are `List Nat`
    (code points); `strN` renders a Lean string literal into that form.
    `localeCompare` is modelled as code-point lexicographic comparison
    (all compared strings here are ASCII alphanumerics, `_` and `-`).
  * A JS `Map` is an insertion-ordered association list: `set` updates
    in place or appends, iteration follows insertion order.
  * `Array.prototype.sort` (stable since ES2019) is modelled by a stable
    insertion sort `sortStable` on a boolean `<` comparator.
  * `Date.now()` and `Math.random()` results are explicit parameters of
    the operations that read them.
  * `async`/`Promise` code is sequentialised; a `throw` is an `Except`
    error value.
-/

set_option maxHeartbeats 1000000

/-- Render a Lean string as a list of character code points (the form in
which the embedding manipulates JS strings). -/
def strN (s : String) : List Nat :=
  s.toList.map Char.toNat

instance [DecidableEq ε] [DecidableEq α] : DecidableEq (Except ε α) := fun a b =>
  match a, b with
  | .ok x, .ok y =>
    if h : x = y then .isTrue (by rw [h]) else .isFalse (by simp [h])
  | .error x, .error y =>
    if h : x = y then .isTrue (by rw [h]) else .isFalse (by simp [h])
  | .ok _, .error _ => .isFalse (by simp)
  | .error _, .ok _ => .isFalse (by simp)

/-- Model of `Map.prototype.set`: update the first binding of the key in
place, or append a fresh binding (JS maps keep the original insertion
position of an overwritten key). -/
def jsMapSet [DecidableEq κ] : List (κ × ν) → κ → ν → List (κ × ν)
  | [], k, v => [(k, v)]
  | (k', v') :: rest, k, v =>
    if k' = k then (k, v) :: rest else (k', v') :: jsMapSet rest k v

/-- Model of `Map.prototype.get` (first binding wins; bindings are unique
in a real map). -/
def jsMapGet [DecidableEq κ] : List (κ × ν) → κ → Option ν
  | [], _ => none
  | (k', v') :: rest, k => if k' = k then some v' else jsMapGet rest k

/-- Model of `Map.prototype.has`. -/
def jsMapHas [DecidableEq κ] (m : List (κ × ν)) (k : κ) : Bool :=
  m.any (fun p => p.1 = k)

/-- Model of `Map.prototype.delete` (removes the binding of the key). -/
def jsMapDelete [DecidableEq κ] : List (κ × ν) → κ → List (κ × ν)
  | [], _ => []
  | (k', v') :: rest, k =>
    if k' = k then rest else (k', v') :: jsMapDelete rest k

/-- Stable insertion of `x` into `l`: `x` goes in front of the first
element that is not strictly below it, so elements comparing equal keep
their original relative order. -/
def insertStable (lt : α → α → Bool) (x : α) : List α → List α
  | [] => [x]
  | y :: ys => if lt y x then y :: insertStable lt x ys else x :: y :: ys

/-- Model of `Array.prototype.sort` with a `<` comparator: a stable sort
(ES2019 guarantees sort stability). -/
def sortStable (lt : α → α → Bool) : List α → List α
  | [] => []
  | x :: xs => insertStable lt x (sortStable lt xs)

/-- Code-point lexicographic strict comparison; model of a negative
`String.prototype.localeCompare` result on the ASCII strings used here. -/
def lexLt : List Nat → List Nat → Bool
  | [], [] => false
  | [], _ :: _ => true
  | _ :: _, [] => false
  | a :: as, b :: bs => if a = b then lexLt as bs else decide (a < b)

-- ## Decimal rendering of numbers (model of Number.prototype.toString on naturals)

/-- The code point of a decimal digit. -/
def digitCode (d : Nat) : Nat := 48 + d

/-- The last `L` decimal digits of `n`, most significant first, as code
points (with leading zeros when `n < 10 ^ (L - 1)`). -/
def digitsFix : Nat → Nat → List Nat
  | 0, _ => []
  | L + 1, n => digitsFix L (n / 10) ++ [digitCode (n % 10)]

/-- Number of decimal digits, by fuel-bounded recursion (the fuel `n`
itself always suffices since a number exceeds its digit count). -/
def natLenFuel : Nat → Nat → Nat
  | 0, _ => 1
  | fuel + 1, n => if n < 10 then 1 else natLenFuel fuel (n / 10) + 1

/-- Number of decimal digits of `n` (1 for 0). -/
def natLen (n : Nat) : Nat := natLenFuel n n

/-- Decimal rendering of `n` as code points: model of the template-string
interpolation of a `Date.now()` value. -/
def natChars (n : Nat) : List Nat := digitsFix (natLen n) n

/-- ASCII decimal digit code points. -/
def isDigitCode (c : Nat) : Bool := 48 ≤ c && c ≤ 57

-- ## Character classes used by the event-id pattern of `src/server.ts`

/-- Code points matching the regex class `[a-f0-9-]` with the `i` flag. -/
def isHexDashCode (c : Nat) : Bool :=
  isDigitCode c || (97 ≤ c && c ≤ 102) || (65 ≤ c && c ≤ 70) || c == 45

/-- Code points matching the regex class `[a-z0-9]` with the `i` flag. -/
def isSfxCode (c : Nat) : Bool :=
  isDigitCode c || (97 ≤ c && c ≤ 122) || (65 ≤ c && c ≤ 90)

/-- The code point of an underscore. -/
def usc : Nat := 95

namespace Server

/-- Durable part of one stored event: the value type of the
`InMemoryEventStore.events` map in `src/server.ts` (`streamId`,
`message`, `timestamp`). The payload type is an opaque parameter. -/
structure EventRec (M : Type) where
  streamId : List Nat
  message : M
  timestamp : Nat
deriving DecidableEq, Repr

/-- State of `InMemoryEventStore` (`src/server.ts`): the insertion-ordered
event map plus the bounding configuration. In the source `maxAge` and
`maxEvents` are the readonly fields initialised to 24h and 10000. -/
structure InMemoryEventStore (M : Type) where
  events : List (List Nat × EventRec M)
  maxAge : Nat
  maxEvents : Nat
deriving DecidableEq, Repr

/-- A freshly constructed `InMemoryEventStore`: empty map, 24-hour age
bound (86400000 ms) and 10000-event cap, as in the field initialisers. -/
def InMemoryEventStore.init (M : Type) : InMemoryEventStore M :=
  { events := [], maxAge := 86400000, maxEvents := 10000 }

/-- `generateEventId`: the template string
`streamId_Date.now()_randomSuffix` of `src/server.ts`; the clock value
and the random base-36 suffix are explicit parameters. -/
def generateEventId (streamId : List Nat) (nowMs : Nat) (sfx : List Nat) : List Nat :=
  streamId ++ usc :: natChars nowMs ++ usc :: sfx

/-- Whether an event id matches the anchored regex
`^([a-f0-9-]{36})_(\d+)_([a-z0-9]+)$/i` of `getStreamIdFromEventId` in
`src/server.ts`. Since `\d` and `[a-z0-9]` both exclude `_`, the match
decomposes uniquely: the digit run after position 36 is the maximal
digit prefix of the remainder. -/
def eventIdMatch (eventId : List Nat) : Bool :=
  let p := eventId.take 36
  let rest := eventId.drop 36
  p.length == 36 && p.all isHexDashCode &&
    match rest with
    | [] => false
    | c :: tl =>
      c == usc &&
        (let ds := tl.takeWhile isDigitCode
         let r := tl.dropWhile isDigitCode
         !ds.isEmpty &&
           match r with
           | [] => false
           | c' :: sfx => c' == usc && !sfx.isEmpty && sfx.all isSfxCode)

/-- `getStreamIdFromEventId` of `src/server.ts`: the first capture group
(the 36-character stream id) when the id matches the pattern, and the
empty string (after logging an error) when it does not. -/
def getStreamIdFromEventId (eventId : List Nat) : List Nat :=
  if eventIdMatch eventId then eventId.take 36 else []

/-- `InMemoryEventStore.storeEvent` of `src/server.ts`: generate the id,
insert the record, and on overflow delete the oldest entries by record
timestamp (stable sort, then delete the first `size - maxEvents` keys).
`idNowMs` and `recNowMs` are the two separate `Date.now()` reads. -/
def InMemoryEventStore.storeEvent [DecidableEq M] (s : InMemoryEventStore M)
    (streamId : List Nat) (message : M) (idNowMs recNowMs : Nat) (sfx : List Nat) :
    InMemoryEventStore M × List Nat :=
  let eventId := generateEventId streamId idNowMs sfx
  let events1 := jsMapSet s.events eventId ⟨streamId, message, recNowMs⟩
  let events2 :=
    if s.maxEvents < events1.length then
      let sorted := sortStable (fun a b => decide (a.2.timestamp < b.2.timestamp)) events1
      let toDelete := (sorted.take (events1.length - s.maxEvents)).map Prod.fst
      events1.filter (fun (e : List Nat × EventRec M) => decide (e.1 ∉ toDelete))
    else events1
  ({ s with events := events2 }, eventId)

/-- The loop body of `replayEventsAfter`: skip entries until
`lastEventId` is seen, then deliver every later entry through the sink.
The returned list is the sequence of `send(eventId, message)` calls. -/
def sendLoop [DecidableEq M] (target : List Nat) :
    List (List Nat × EventRec M) → Bool → List (List Nat × M)
  | [], _ => []
  | (eid, r) :: rest, found =>
    if eid = target then sendLoop target rest true
    else if found then (eid, r.message) :: sendLoop target rest found
    else sendLoop target rest found

/-- `InMemoryEventStore.replayEventsAfter` of `src/server.ts`: empty
result for a falsy or unknown id, otherwise recover the stream from the
id, filter that stream's events, sort by id (`localeCompare`), and send
everything after the id. Returns the recovered stream id and the list of
sink deliveries. -/
def InMemoryEventStore.replayEventsAfter [DecidableEq M] (s : InMemoryEventStore M)
    (lastEventId : List Nat) : List Nat × List (List Nat × M) :=
  if lastEventId.isEmpty || !(jsMapHas s.events lastEventId) then ([], [])
  else
    let streamId := getStreamIdFromEventId lastEventId
    if streamId.isEmpty then ([], [])
    else
      let sorted := sortStable (fun a b => lexLt a.1 b.1)
        (s.events.filter (fun e => decide (e.2.streamId = streamId)))
      (streamId, sendLoop lastEventId sorted false)

/-- `InMemoryEventStore.cleanup` of `src/server.ts`: delete every event
whose age exceeds `maxAge`. -/
def InMemoryEventStore.cleanup [DecidableEq M] (s : InMemoryEventStore M)
    (nowMs : Nat) : InMemoryEventStore M :=
  { s with events := s.events.filter (fun e => decide (nowMs - e.2.timestamp ≤ s.maxAge)) }

/-- State of `RedisEventStore` (`src/server.ts`): one Redis stream per
`mcp_events:streamId` key (entries in id order, ids auto-generated from
the Redis clock), plus the per-key TTLs set by `expire`. -/
structure RedisEventStore (M : Type) where
  streams : List (List Nat × List (Nat × M))
  ttls : List (List Nat × Nat)
  maxAge : Nat
  maxEvents : Nat
deriving DecidableEq, Repr

/-- A freshly constructed `RedisEventStore` (same bounds as in-memory). -/
def RedisEventStore.init (M : Type) : RedisEventStore M :=
  { streams := [], ttls := [], maxAge := 86400000, maxEvents := 10000 }

/-- The `mcp_events:` key of a stream. -/
def streamKeyOf (streamId : List Nat) : List Nat :=
  strN "mcp_events:" ++ streamId

/-- `RedisEventStore.storeEvent` of `src/server.ts`:
`XADD streamKey MAXLEN ~ maxEvents * data message` followed by
`EXPIRE streamKey maxAge/1000`. The auto-generated entry id (a
millisecond timestamp plus sequence number) is the parameter `redisId`;
the approximate (`~`) trim is modelled as an exact trim to the newest
`maxEvents` entries of that one key. -/
def RedisEventStore.storeEvent [DecidableEq M] (s : RedisEventStore M)
    (streamId : List Nat) (message : M) (redisId : Nat) : RedisEventStore M × Nat :=
  let key := streamKeyOf streamId
  let entries := (jsMapGet s.streams key).getD []
  let entries1 := entries ++ [(redisId, message)]
  let entries2 := entries1.drop (entries1.length - s.maxEvents)
  ({ s with
      streams := jsMapSet s.streams key entries2,
      ttls := jsMapSet s.ttls key (s.maxAge / 1000) }, redisId)

end Server

namespace SimpleServer

/-- `getStreamIdFromEventId` of the simpler reference server:
`eventId.split('_')[0]`, i.e. the (possibly empty) segment before the
first underscore, with no shape validation. -/
def getStreamIdFromEventId (eventId : List Nat) : List Nat :=
  eventId.takeWhile (fun c => !(c == usc))

/-- `replayEventsAfter` of the simpler reference server: identical to
the production one except for the lenient stream-id recovery. Its
`storeEvent` is verbatim the production `storeEvent`, so the store state
is built with `Server.InMemoryEventStore.storeEvent`. -/
def replayEventsAfter [DecidableEq M] (s : Server.InMemoryEventStore M)
    (lastEventId : List Nat) : List Nat × List (List Nat × M) :=
  if lastEventId.isEmpty || !(jsMapHas s.events lastEventId) then ([], [])
  else
    let streamId := getStreamIdFromEventId lastEventId
    if streamId.isEmpty then ([], [])
    else
      let sorted := sortStable (fun a b => lexLt a.1 b.1)
        (s.events.filter (fun e => decide (e.2.streamId = streamId)))
      (streamId, Server.sendLoop lastEventId sorted false)

end SimpleServer

namespace Server

-- ## Durable session data and the error hierarchy (`src/types.ts`)

/-- `Calculation` of `src/types.ts`: one immutable history record.
Numeric inputs and results are modelled as integers (their values play
no role in the session-lifecycle properties). -/
structure Calculation where
  id : String
  sessionId : String
  timestamp : Nat
  operation : String
  inputs : List Int
  result : Int
deriving DecidableEq, Repr

/-- The durable fields of `SessionData` (`src/types.ts`): exactly the
fields both stores copy into their serialisable snapshot (`sessionId`,
`startTime`, `lastActivity`, `requestCount`, `calculations`). The
transient `transport`/`server` fields are the live objects; they are
never persisted (both `set` implementations strip them), so the durable
record type omits them. -/
structure SessionData where
  sessionId : String
  startTime : Nat
  lastActivity : Nat
  requestCount : Nat
  calculations : List Calculation
deriving DecidableEq, Repr

/-- The application error taxonomy of `src/types.ts`:
`SessionNotFoundError` (code `InvalidRequest` = -32600, context carries
the session id) and `StorageOperationFailedError` (code `InternalError`
= -32603, carrying the wrapped low-level cause and the context), plus
the SDK-level `McpError` for invalid requests. -/
inductive AppError where
  | sessionNotFound (message : String) (ctxSessionId : String)
  | storageOpFailed (message : String) (originalError : String) (ctxSessionId : String)
  | invalidRequest (message : String)
deriving DecidableEq, Repr

/-- The `StorageOperationFailedError` thrown by `RedisSessionStore.set`:
fixed message, wrapped cause, `{ sessionId }` context. -/
def storageSetError (cause sessionId : String) : AppError :=
  .storageOpFailed "Failed to save session state" cause sessionId

/-- Shape of the JSON-RPC error body produced at the HTTP boundary. -/
structure JsonRpcErrorBody where
  code : Int
  message : String
  data : String
deriving DecidableEq, Repr

/-- The global Express error-handling middleware of `src/server.ts`: for
a `CalculatorServerError` it sends `err.code`, `err.message` and
`err.context` — the wrapped `originalError` of a storage failure is
only logged, never placed in the response. -/
def globalErrorHandler : AppError → JsonRpcErrorBody
  | .sessionNotFound message ctx => ⟨-32600, message, ctx⟩
  | .storageOpFailed message _ ctx => ⟨-32603, message, ctx⟩
  | .invalidRequest message => ⟨-32600, message, ""⟩

-- ## `InMemorySessionStore` (`src/server.ts`)

/-- `InMemorySessionStore.get`: lazy expiry — when the idle time since
`lastActivity` exceeds the timeout, delete the record on read and report
absence. Returns the possibly-updated map together with the result. -/
def InMemorySessionStore.get (sessions : List (String × SessionData))
    (sessionTimeout : Nat) (sessionId : String) (nowMs : Nat) :
    List (String × SessionData) × Option SessionData :=
  match jsMapGet sessions sessionId with
  | none => (sessions, none)
  | some s =>
    if sessionTimeout < nowMs - s.lastActivity then
      (jsMapDelete sessions sessionId, none)
    else (sessions, some s)

/-- `InMemorySessionStore.set`: store the serialisable copy (the durable
record already contains only the storable fields). -/
def InMemorySessionStore.set (sessions : List (String × SessionData))
    (sessionId : String) (data : SessionData) : List (String × SessionData) :=
  jsMapSet sessions sessionId data

/-- `InMemorySessionStore.updateActivity`: if the raw map has the record
(no expiry check here), refresh `lastActivity` and bump `requestCount`
in place; otherwise do nothing. -/
def InMemorySessionStore.updateActivity (sessions : List (String × SessionData))
    (sessionId : String) (nowMs : Nat) : List (String × SessionData) :=
  match jsMapGet sessions sessionId with
  | none => sessions
  | some s =>
    jsMapSet sessions sessionId
      { s with lastActivity := nowMs, requestCount := s.requestCount + 1 }

/-- `InMemorySessionStore.cleanup`: drop every record whose idle time
exceeds the timeout. -/
def InMemorySessionStore.cleanup (sessions : List (String × SessionData))
    (sessionTimeout : Nat) (nowMs : Nat) : List (String × SessionData) :=
  sessions.filter (fun p => decide (nowMs - p.2.lastActivity ≤ sessionTimeout))

-- ## `RedisSessionStore` (`src/server.ts`) with fault injection

/-- Outcomes of the underlying Redis commands for one store call:
whether `GET` fails, whether `SET` fails (printing the low-level cause),
and whether `DEL` fails. Success of all commands is
`{ failGet := false, failSet := none, failDel := false }`. -/
structure RedisFaults where
  failGet : Bool
  failSet : Option String
  failDel : Bool
deriving DecidableEq, Repr

/-- `RedisSessionStore.get`: fail-open — any Redis read error is logged
and reported as absence (`null`); on success the JSON round-trip of the
durable fields is the identity and the transient fields come back
`null`. -/
def RedisSessionStore.get (f : RedisFaults) (kv : List (String × SessionData))
    (sessionId : String) : Option SessionData :=
  if f.failGet then none else jsMapGet kv sessionId

/-- `RedisSessionStore.set`: fail-loud — a Redis write error is wrapped
in `StorageOperationFailedError` and thrown; on success the serialisable
copy is stored under `mcp_session:sessionId` with the session TTL. -/
def RedisSessionStore.set (f : RedisFaults) (kv : List (String × SessionData))
    (sessionId : String) (data : SessionData) :
    Except AppError (List (String × SessionData)) :=
  match f.failSet with
  | some cause => .error (storageSetError cause sessionId)
  | none => .ok (jsMapSet kv sessionId data)

/-- `RedisSessionStore.delete`: best-effort — a Redis error is logged
and swallowed, leaving the keyspace as the failure left it (here:
unchanged). -/
def RedisSessionStore.delete (f : RedisFaults) (kv : List (String × SessionData))
    (sessionId : String) : List (String × SessionData) :=
  if f.failDel then kv else jsMapDelete kv sessionId

/-- `RedisSessionStore.updateActivity`: read-modify-write of
`lastActivity`/`requestCount` inside a catch-all that logs and swallows
every error, including a failing inner `set`. -/
def RedisSessionStore.updateActivity (f : RedisFaults)
    (kv : List (String × SessionData)) (sessionId : String) (nowMs : Nat) :
    List (String × SessionData) :=
  match RedisSessionStore.get f kv sessionId with
  | none => kv
  | some s =>
    match RedisSessionStore.set f kv sessionId
        { s with lastActivity := nowMs, requestCount := s.requestCount + 1 } with
    | .ok kv' => kv'
    | .error _ => kv

-- ## The session coordinator of `createApp` (`src/server.ts`)

/-- The per-node coordination state: the authoritative session store
(in-memory backend), the keys of the local `sessionInstances` cache of
live transport/server pairs, and a ghost log of every session id for
which a store `set` has completed (newest first). The ghost log is not
part of the program state; it only records history for stating the
creation-ordering invariant. -/
structure NodeState where
  store : List (String × SessionData)
  cache : List String
  setLog : List String
deriving DecidableEq, Repr

/-- The state of a freshly started node. -/
def NodeState.init : NodeState := ⟨[], [], []⟩

/-- The order of the observable steps of the new-session flow of
`POST /mcp` (`src/server.ts` lines 1771-1818): generate the id,
construct the `StreamableHTTPServerTransport` with that fixed id,
persist the session record via `sessionStore.set`, construct the
`McpServer` via `createMCPServer` and connect it, and insert both into
`sessionInstances`. -/
inductive InitStep where
  | genSessionId
  | constructTransport
  | storeSet
  | constructServer
  | cacheInsert
deriving DecidableEq, Repr

/-- The new-session flow's step sequence, in program order. -/
def newSessionFlow : List InitStep :=
  [.genSessionId, .constructTransport, .storeSet, .constructServer, .cacheInsert]

/-- The new-session branch of `POST /mcp`: pre-generate the id,
construct the transport, build the initial durable record
(`requestCount := 1`, empty history, both timestamps now), persist it
via the session store's `set`, then construct the MCP server and cache
the pair. `setFault` is the outcome of the underlying durable write
(always `none` on the in-memory backend; on the Redis backend a failure
carries the low-level cause and aborts the request before the cache
insert). The pair's second component is the request outcome. -/
def postInit (st : NodeState) (newSessionId : String) (nowMs : Nat)
    (setFault : Option String) : NodeState × Except AppError Unit :=
  match setFault with
  | some cause => (st, .error (storageSetError cause newSessionId))
  | none =>
    let sessionData : SessionData :=
      { sessionId := newSessionId, startTime := nowMs, lastActivity := nowMs,
        requestCount := 1, calculations := [] }
    let st1 := { st with
      store := InMemorySessionStore.set st.store newSessionId sessionData,
      setLog := newSessionId :: st.setLog }
    ({ st1 with cache := newSessionId :: st1.cache }, .ok ())

/-- `getOrCreateInstances` of `src/server.ts`: local cache hit returns
immediately; otherwise consult the session store, fail with
`SessionNotFoundError` on absence, and on presence reconstruct the
live pair and cache it. -/
def getOrCreateInstances (st : NodeState) (sessionId : String)
    (nowMs sessionTimeout : Nat) : NodeState × Except AppError Unit :=
  if sessionId ∈ st.cache then (st, .ok ())
  else
    match InMemorySessionStore.get st.store sessionTimeout sessionId nowMs with
    | (store1, none) =>
      ({ st with store := store1 },
        .error (.sessionNotFound "Session does not exist or has expired." sessionId))
    | (store1, some _) =>
      ({ st with store := store1, cache := sessionId :: st.cache }, .ok ())

/-- The existing-session branch of `POST /mcp`: update activity
tracking, then get-or-reconstruct the instances. -/
def postExisting (st : NodeState) (sessionId : String)
    (nowMs sessionTimeout : Nat) : NodeState × Except AppError Unit :=
  let st1 := { st with
    store := InMemorySessionStore.updateActivity st.store sessionId nowMs }
  getOrCreateInstances st1 sessionId nowMs sessionTimeout

/-- The `onsessionclosed` callback: when the closed session is locally
cached, close the instances, evict them and delete the durable record. -/
def onSessionClosed (st : NodeState) (sessionId : String) : NodeState :=
  if sessionId ∈ st.cache then
    { st with
      cache := st.cache.erase sessionId,
      store := jsMapDelete st.store sessionId }
  else st

/-- `DELETE /mcp`: resolve the instances (reconstructing if needed),
then let the transport trigger `onsessionclosed`. -/
def deleteEndpoint (st : NodeState) (sessionId : String)
    (nowMs sessionTimeout : Nat) : NodeState × Except AppError Unit :=
  match getOrCreateInstances st sessionId nowMs sessionTimeout with
  | (st1, .error e) => (st1, .error e)
  | (st1, .ok _) => (onSessionClosed st1 sessionId, .ok ())

/-- One round of the 60-second cleanup interval (in-memory mode): sweep
expired records from the store, then evict every cached instance whose
backing record is gone. -/
def sweepInterval (st : NodeState) (nowMs sessionTimeout : Nat) : NodeState :=
  let store1 := InMemorySessionStore.cleanup st.store sessionTimeout nowMs
  { st with
    store := store1,
    cache := st.cache.filter (fun sid => jsMapHas store1 sid) }

/-- States of one node reachable by any interleaving of the endpoint
handlers and the cleanup interval, from a fresh start. -/
inductive Reach : NodeState → Prop where
  | init : Reach NodeState.init
  | postInitStep (st : NodeState) (sid : String) (nowMs : Nat) (fault : Option String) :
      Reach st → Reach (postInit st sid nowMs fault).1
  | postExistingStep (st : NodeState) (sid : String) (nowMs tmo : Nat) :
      Reach st → Reach (postExisting st sid nowMs tmo).1
  | deleteStep (st : NodeState) (sid : String) (nowMs tmo : Nat) :
      Reach st → Reach (deleteEndpoint st sid nowMs tmo).1
  | sweepStep (st : NodeState) (nowMs tmo : Nat) :
      Reach st → Reach (sweepInterval st nowMs tmo)

/-- The backing-record discipline: every locally cached live pair and
every stored durable record is for an id whose store `set` completed at
some earlier point. -/
def SetBacked (st : NodeState) : Prop :=
  (∀ sid ∈ st.cache, sid ∈ st.setLog) ∧ (∀ p ∈ st.store, p.1 ∈ st.setLog)

end Server


/-- The last `n` elements of a list, in order. -/
def takeLast (n : Nat) (l : List α) : List α := l.drop (l.length - n)

namespace Server

-- ## History ring buffer of the tool handlers (`src/server.ts`)

/-- The history update of the `calculate` and `advanced_calculate` tool
handlers: `calculations.push(calculation)` followed by a single
`if (calculations.length > 50) calculations.shift()`. -/
def pushCalculationTrim (calculations : List Calculation) (c : Calculation) :
    List Calculation :=
  let cs := calculations ++ [c]
  if 50 < cs.length then cs.drop 1 else cs

/-- The history update of the `batch_calculate` handler: push one record
per loop iteration, then `while (calculations.length > 50) shift()` —
the while loop removes exactly `length - 50` front elements. -/
def batchAppendTrim (calculations newRecords : List Calculation) :
    List Calculation :=
  let cs := calculations ++ newRecords
  cs.drop (cs.length - 50)

-- ## Whole-run scaffolding for event-store appends

/-- The parameters of one `storeEvent` call: stream, payload, the two
`Date.now()` reads and the random base-36 suffix. -/
structure AppendIn (M : Type) where
  streamId : List Nat
  message : M
  idNowMs : Nat
  recNowMs : Nat
  sfx : List Nat
deriving DecidableEq, Repr

/-- The event id `generateEventId` assigns to this append. -/
def AppendIn.eventId (i : AppendIn M) : List Nat :=
  generateEventId i.streamId i.idNowMs i.sfx

/-- The map entry `storeEvent` inserts for this append. -/
def AppendIn.entry (i : AppendIn M) : List Nat × EventRec M :=
  (i.eventId, ⟨i.streamId, i.message, i.recNowMs⟩)

/-- Run a sequence of `storeEvent` calls against a store. -/
def runAppends [DecidableEq M] (s : InMemoryEventStore M) (l : List (AppendIn M)) :
    InMemoryEventStore M :=
  l.foldl (fun s i => (s.storeEvent i.streamId i.message i.idNowMs i.recNowMs i.sfx).1) s

end Server


-- ## Basic lemmas about the JS collection models

theorem jsMapSet_fresh [DecidableEq κ] (m : List (κ × ν)) (k : κ) (v : ν)
    (h : jsMapHas m k = false) : jsMapSet m k v = m ++ [(k, v)] := by
  induction m with
  | nil => rfl
  | cons p rest ih =>
    simp only [jsMapHas, List.any_cons, Bool.or_eq_false_iff, decide_eq_false_iff_not] at h
    simp only [jsMapSet, if_neg h.1, List.cons_append]
    rw [ih]
    simp only [jsMapHas, h.2]

theorem jsMapGet_append_right [DecidableEq κ] (m₁ m₂ : List (κ × ν)) (k : κ)
    (h : jsMapHas m₁ k = false) : jsMapGet (m₁ ++ m₂) k = jsMapGet m₂ k := by
  induction m₁ with
  | nil => rfl
  | cons p rest ih =>
    simp only [jsMapHas, List.any_cons, Bool.or_eq_false_iff, decide_eq_false_iff_not] at h
    simp only [List.cons_append, jsMapGet, if_neg h.1]
    exact ih h.2

theorem jsMapHas_iff_mem_keys [DecidableEq κ] (m : List (κ × ν)) (k : κ) :
    jsMapHas m k = true ↔ k ∈ m.map Prod.fst := by
  induction m with
  | nil => simp [jsMapHas]
  | cons p rest ih =>
    have hstep : jsMapHas (p :: rest) k = (decide (p.1 = k) || jsMapHas rest k) := rfl
    rw [hstep]
    simp only [Bool.or_eq_true, decide_eq_true_eq, List.map_cons, List.mem_cons, ih]
    constructor
    · rintro (h | h)
      · exact Or.inl h.symm
      · exact Or.inr h
    · rintro (h | h)
      · exact Or.inl h.symm
      · exact Or.inr h

theorem jsMapGet_eq_some_of_mem [DecidableEq κ] (m : List (κ × ν))
    (hnd : (m.map Prod.fst).Nodup) (k : κ) (v : ν) (h : (k, v) ∈ m) :
    jsMapGet m k = some v := by
  induction m with
  | nil => cases h
  | cons p rest ih =>
    simp only [List.map_cons, List.nodup_cons] at hnd
    rcases List.mem_cons.mp h with h | h
    · simp [jsMapGet, ← h]
    · have hk : p.1 ≠ k := by
        intro he
        exact hnd.1 (he ▸ (List.mem_map.mpr ⟨(k, v), h, rfl⟩))
      simp only [jsMapGet, if_neg hk]
      exact ih hnd.2 h

theorem jsMapSet_nodup_keys [DecidableEq κ] (m : List (κ × ν)) (k : κ) (v : ν)
    (h : (m.map Prod.fst).Nodup) : ((jsMapSet m k v).map Prod.fst).Nodup := by
  induction m with
  | nil => simp [jsMapSet]
  | cons p rest ih =>
    simp only [List.map_cons, List.nodup_cons] at h
    by_cases he : p.1 = k
    · simpa [jsMapSet, he, List.nodup_cons] using ⟨by simpa [he] using h.1, h.2⟩
    · have hrest := ih h.2
      have hkeys : (jsMapSet rest k v).map Prod.fst = rest.map Prod.fst ∨
          (jsMapSet rest k v).map Prod.fst = rest.map Prod.fst ++ [k] := by
        clear h hrest ih
        induction rest with
        | nil => right; rfl
        | cons q qs ihq =>
          by_cases hq : q.1 = k
          · left; simp [jsMapSet, hq]
          · rcases ihq with h1 | h1
            · left; simp [jsMapSet, hq, h1]
            · right; simp [jsMapSet, hq, h1]
      simp only [jsMapSet, if_neg he, List.map_cons, List.nodup_cons]
      refine ⟨?_, hrest⟩
      rcases hkeys with h1 | h1 <;> rw [h1]
      · exact h.1
      · intro hmem
        rcases List.mem_append.mp hmem with hmem | hmem
        · exact h.1 hmem
        · exact he (List.mem_singleton.mp hmem)

-- ## Lemmas about the stable sort model

theorem insertStable_perm (lt : α → α → Bool) (x : α) (l : List α) :
    List.Perm (insertStable lt x l) (x :: l) := by
  induction l with
  | nil => rfl
  | cons y ys ih =>
    by_cases h : lt y x = true
    · simp only [insertStable, if_pos h]
      exact (ih.cons y).trans (List.Perm.swap x y ys)
    · simp only [insertStable, if_neg h]
      exact List.Perm.refl _

theorem sortStable_perm (lt : α → α → Bool) (l : List α) :
    List.Perm (sortStable lt l) l := by
  induction l with
  | nil => rfl
  | cons x xs ih =>
    exact (insertStable_perm lt x (sortStable lt xs)).trans (ih.cons x)

theorem insertStable_sorted (lt : α → α → Bool)
    (hasym : ∀ a b, lt a b = true → lt b a = false)
    (htrans : ∀ a b c, lt b a = false → lt c b = false → lt c a = false)
    (x : α) (l : List α) (h : l.Pairwise (fun a b => lt b a = false)) :
    (insertStable lt x l).Pairwise (fun a b => lt b a = false) := by
  induction l with
  | nil => simp [insertStable]
  | cons y ys ih =>
    rcases List.pairwise_cons.mp h with ⟨hy, hys⟩
    by_cases hlt : lt y x = true
    · simp only [insertStable, if_pos hlt]
      refine List.pairwise_cons.mpr ⟨?_, ih hys⟩
      intro z hz
      have hz' := (insertStable_perm lt x ys).mem_iff.mp hz
      rcases List.mem_cons.mp hz' with rfl | hz''
      · exact hasym y z hlt
      · exact hy z hz''
    · have hxy : lt y x = false := by
        cases hb : lt y x
        · rfl
        · exact absurd hb hlt
      simp only [insertStable, if_neg hlt]
      refine List.pairwise_cons.mpr ⟨?_, h⟩
      intro z hz
      rcases List.mem_cons.mp hz with rfl | hz'
      · exact hxy
      · exact htrans x y z hxy (hy z hz')

theorem sortStable_sorted (lt : α → α → Bool)
    (hasym : ∀ a b, lt a b = true → lt b a = false)
    (htrans : ∀ a b c, lt b a = false → lt c b = false → lt c a = false)
    (l : List α) :
    (sortStable lt l).Pairwise (fun a b => lt b a = false) := by
  induction l with
  | nil => simp [sortStable]
  | cons x xs ih => exact insertStable_sorted lt hasym htrans x _ ih

theorem sortStable_of_chain (lt : α → α → Bool)
    (hasym : ∀ a b, lt a b = true → lt b a = false)
    (l : List α) (h : l.Chain' (fun a b => lt a b = true)) :
    sortStable lt l = l := by
  induction l with
  | nil => rfl
  | cons x xs ih =>
    have hxs := ih (List.Chain'.tail h)
    simp only [sortStable, hxs]
    cases xs with
    | nil => rfl
    | cons y ys =>
      have hxy : lt x y = true := List.chain'_cons.mp h |>.1
      simp [insertStable, hasym x y hxy]

-- ## Lemmas about lexicographic comparison

theorem lexLt_append_same (p x y : List Nat) :
    lexLt (p ++ x) (p ++ y) = lexLt x y := by
  induction p with
  | nil => rfl
  | cons a as ih => simp [lexLt, ih]

theorem lexLt_append_of_eqlen (A B : List Nat) (xs ys : List Nat)
    (hlen : A.length = B.length) (h : lexLt A B = true) :
    lexLt (A ++ xs) (B ++ ys) = true := by
  induction A generalizing B with
  | nil =>
    cases B with
    | nil => simp [lexLt] at h
    | cons b bs => simp at hlen
  | cons a as ih =>
    cases B with
    | nil => simp at hlen
    | cons b bs =>
      simp only [List.length_cons, Nat.succ.injEq] at hlen
      by_cases he : a = b
      · subst he
        simp only [lexLt, if_pos rfl] at h ⊢
        exact ih bs hlen h
      · simp only [lexLt, if_neg he] at h
        simp [lexLt, he, h]

theorem lexLt_asym (a b : List Nat) (h : lexLt a b = true) : lexLt b a = false := by
  induction a generalizing b with
  | nil =>
    cases b with
    | nil => simp [lexLt] at h
    | cons y ys => simp [lexLt]
  | cons x xs ih =>
    cases b with
    | nil => simp [lexLt] at h
    | cons y ys =>
      by_cases he : x = y
      · subst he
        simp only [lexLt, if_pos rfl] at h ⊢
        exact ih ys h
      · simp only [lexLt, if_neg he, decide_eq_true_eq] at h
        have : ¬ (y = x) := fun hc => he hc.symm
        simp only [lexLt, if_neg this, decide_eq_false_iff_not]
        omega

theorem lexLt_irrefl (a : List Nat) : lexLt a a = false := by
  induction a with
  | nil => rfl
  | cons x xs ih => simp [lexLt, ih]

theorem length_digitsFix (L n : Nat) : (digitsFix L n).length = L := by
  induction L generalizing n with
  | zero => rfl
  | succ L ih => simp [digitsFix, ih]

theorem digitsFix_all_digit (L n : Nat) :
    (digitsFix L n).all isDigitCode = true := by
  induction L generalizing n with
  | zero => rfl
  | succ L ih =>
    simp only [digitsFix, List.all_append, ih, List.all_cons, List.all_nil,
      Bool.and_true, Bool.true_and]
    have : n % 10 < 10 := Nat.mod_lt _ (by omega)
    simp only [isDigitCode, digitCode, Bool.and_eq_true, decide_eq_true_eq]
    omega

theorem natChars_all_digit (n : Nat) : (natChars n).all isDigitCode = true :=
  digitsFix_all_digit _ _

theorem length_natChars (n : Nat) : (natChars n).length = natLen n :=
  length_digitsFix _ _

theorem lt_pow_natLenFuel (fuel n : Nat) (h : n ≤ fuel) :
    n < 10 ^ natLenFuel fuel n := by
  induction fuel generalizing n with
  | zero =>
    have : n = 0 := by omega
    subst this
    simp [natLenFuel]
  | succ fuel ih =>
    by_cases h10 : n < 10
    · simp only [natLenFuel, if_pos h10, pow_one]
      exact h10
    · simp only [natLenFuel, if_neg h10]
      have hdiv : n / 10 ≤ fuel := by omega
      have hq := ih (n / 10) hdiv
      have hmod : n % 10 < 10 := Nat.mod_lt _ (by omega)
      have hdm : 10 * (n / 10) + n % 10 = n := Nat.div_add_mod n 10
      have hpow : 10 ^ (natLenFuel fuel (n / 10) + 1)
          = 10 * 10 ^ natLenFuel fuel (n / 10) := by ring
      omega

theorem lt_pow_natLen (n : Nat) : n < 10 ^ natLen n :=
  lt_pow_natLenFuel n n (Nat.le_refl n)

/-- Equal-length decimal renderings compare lexicographically exactly as
the numbers compare: the core of why event ids sort in causal order. -/
theorem lexLt_digitsFix (L a b : Nat) (hab : a < b) (hb : b < 10 ^ L) :
    lexLt (digitsFix L a) (digitsFix L b) = true := by
  induction L generalizing a b with
  | zero => simp at hb; omega
  | succ L ih =>
    have hqa : a / 10 ≤ b / 10 := Nat.div_le_div_right (Nat.le_of_lt hab)
    have hqb : b / 10 < 10 ^ L := by
      rw [Nat.div_lt_iff_lt_mul (by omega)]
      calc b < 10 ^ (L + 1) := hb
        _ = 10 ^ L * 10 := by ring
    rcases Nat.lt_or_ge (a / 10) (b / 10) with hq | hq
    · exact lexLt_append_of_eqlen _ _ _ _
        (by rw [length_digitsFix, length_digitsFix]) (ih _ _ hq hqb)
    · have hqeq : a / 10 = b / 10 := Nat.le_antisymm hqa hq
      have hmod : a % 10 < b % 10 := by
        have ha' := Nat.mod_add_div a 10
        have hb' := Nat.mod_add_div b 10
        omega
      simp only [digitsFix, hqeq, lexLt_append_same]
      have hcl : digitCode (a % 10) < digitCode (b % 10) := by
        simp only [digitCode]; omega
      have hne : digitCode (a % 10) ≠ digitCode (b % 10) := Nat.ne_of_lt hcl
      simp [lexLt, if_neg hne, hcl]

theorem lexLt_natChars (a b : Nat) (hab : a < b) (hlen : natLen a = natLen b) :
    lexLt (natChars a) (natChars b) = true := by
  have := lt_pow_natLen b
  simpa [natChars, hlen] using lexLt_digitsFix (natLen b) a b hab this

theorem natChars_injective (a b : Nat) (h : natChars a = natChars b) : a = b := by
  by_contra hne
  have hlen : natLen a = natLen b := by
    have := length_natChars a
    have := length_natChars b
    rw [h] at *
    omega
  rcases Nat.lt_or_ge a b with hab | hab
  · have := lexLt_natChars a b hab hlen
    rw [h] at this
    rw [lexLt_irrefl] at this
    exact Bool.false_ne_true this
  · have hba : b < a := by omega
    have := lexLt_natChars b a hba hlen.symm
    rw [h] at this
    rw [lexLt_irrefl] at this
    exact Bool.false_ne_true this

-- ## Membership lemmas for the map operations

theorem jsMapSet_mem_or [DecidableEq κ] (m : List (κ × ν)) (k : κ) (v : ν)
    (p : κ × ν) (h : p ∈ jsMapSet m k v) : p ∈ m ∨ p.1 = k := by
  induction m with
  | nil =>
    simp only [jsMapSet, List.mem_singleton] at h
    right; rw [h]
  | cons q rest ih =>
    by_cases he : q.1 = k
    · simp only [jsMapSet, if_pos he, List.mem_cons] at h
      rcases h with h | h
      · right; rw [h]
      · left; exact List.mem_cons_of_mem _ h
    · simp only [jsMapSet, if_neg he, List.mem_cons] at h
      rcases h with h | h
      · left; exact List.mem_cons.mpr (Or.inl h)
      · rcases ih h with h1 | h1
        · left; exact List.mem_cons_of_mem _ h1
        · right; exact h1

theorem jsMapDelete_subset [DecidableEq κ] (m : List (κ × ν)) (k : κ)
    (p : κ × ν) (h : p ∈ jsMapDelete m k) : p ∈ m := by
  induction m with
  | nil => cases h
  | cons q rest ih =>
    by_cases he : q.1 = k
    · simp only [jsMapDelete, if_pos he] at h
      exact List.mem_cons_of_mem _ h
    · simp only [jsMapDelete, if_neg he, List.mem_cons] at h
      rcases h with h | h
      · exact List.mem_cons.mpr (Or.inl h)
      · exact List.mem_cons_of_mem _ (ih h)

theorem jsMapGet_some_mem [DecidableEq κ] (m : List (κ × ν)) (k : κ) (v : ν)
    (h : jsMapGet m k = some v) : (k, v) ∈ m := by
  induction m with
  | nil => cases h
  | cons q rest ih =>
    by_cases he : q.1 = k
    · simp only [jsMapGet, if_pos he, Option.some.injEq] at h
      subst h
      rcases q with ⟨k', v⟩
      simp only at he
      subst he
      exact List.mem_cons_self _ _
    · simp only [jsMapGet, if_neg he] at h
      exact List.mem_cons_of_mem _ (ih h)

-- ## The backing-record invariant of the coordinator

namespace Server

theorem inMemGet_store_subset (sessions : List (String × SessionData))
    (tmo : Nat) (sid : String) (now : Nat) (p : String × SessionData)
    (h : p ∈ (InMemorySessionStore.get sessions tmo sid now).1) : p ∈ sessions := by
  unfold InMemorySessionStore.get at h
  rcases hg : jsMapGet sessions sid with _ | s
  · rw [hg] at h; exact h
  · rw [hg] at h
    by_cases he : tmo < now - s.lastActivity
    · simp only [if_pos he] at h
      exact jsMapDelete_subset _ _ _ h
    · simp only [if_neg he] at h
      exact h

theorem inMemGet_some_mem (sessions : List (String × SessionData))
    (tmo : Nat) (sid : String) (now : Nat) (s : SessionData)
    (h : (InMemorySessionStore.get sessions tmo sid now).2 = some s) :
    (sid, s) ∈ sessions := by
  unfold InMemorySessionStore.get at h
  rcases hg : jsMapGet sessions sid with _ | s'
  · rw [hg] at h; cases h
  · rw [hg] at h
    by_cases he : tmo < now - s'.lastActivity
    · simp only [if_pos he] at h; cases h
    · simp only [if_neg he, Option.some.injEq] at h
      subst h
      exact jsMapGet_some_mem _ _ _ hg

theorem updateActivity_mem (sessions : List (String × SessionData))
    (sid : String) (now : Nat) (p : String × SessionData)
    (h : p ∈ InMemorySessionStore.updateActivity sessions sid now) :
    p ∈ sessions ∨ (p.1 = sid ∧ ∃ v, (sid, v) ∈ sessions) := by
  unfold InMemorySessionStore.updateActivity at h
  rcases hg : jsMapGet sessions sid with _ | s
  · rw [hg] at h; exact Or.inl h
  · rw [hg] at h
    rcases jsMapSet_mem_or _ _ _ _ h with h1 | h1
    · exact Or.inl h1
    · exact Or.inr ⟨h1, s, jsMapGet_some_mem _ _ _ hg⟩

theorem setBacked_init : SetBacked NodeState.init := by
  constructor <;> intro x hx <;> cases hx

theorem setBacked_postInit (st : NodeState) (sid : String) (now : Nat)
    (fault : Option String) (h : SetBacked st) :
    SetBacked (postInit st sid now fault).1 := by
  rcases fault with _ | cause
  · refine ⟨?_, ?_⟩
    · intro x hx
      simp only [postInit, List.mem_cons] at hx ⊢
      rcases hx with rfl | hx
      · exact Or.inl rfl
      · exact Or.inr (h.1 x hx)
    · intro p hp
      simp only [postInit, List.mem_cons] at hp ⊢
      rcases jsMapSet_mem_or _ _ _ _ hp with h1 | h1
      · exact Or.inr (h.2 p h1)
      · exact Or.inl h1
  · exact h

theorem setBacked_getOrCreate (st : NodeState) (sid : String) (now tmo : Nat)
    (h : SetBacked st) : SetBacked (getOrCreateInstances st sid now tmo).1 := by
  unfold getOrCreateInstances
  by_cases hc : sid ∈ st.cache
  · simp only [if_pos hc]; exact h
  · simp only [if_neg hc]
    rcases hg : InMemorySessionStore.get st.store tmo sid now with ⟨store1, r⟩
    rcases r with _ | s
    · refine ⟨h.1, ?_⟩
      intro p hp
      have : p ∈ (InMemorySessionStore.get st.store tmo sid now).1 := by
        rw [hg]; exact hp
      exact h.2 p (inMemGet_store_subset _ _ _ _ _ this)
    · refine ⟨?_, ?_⟩
      · intro x hx
        simp only [List.mem_cons] at hx
        rcases hx with rfl | hx
        · have hsome : (InMemorySessionStore.get st.store tmo x now).2 = some s := by
            rw [hg]
          exact h.2 _ (inMemGet_some_mem _ _ _ _ _ hsome)
        · exact h.1 x hx
      · intro p hp
        have : p ∈ (InMemorySessionStore.get st.store tmo sid now).1 := by
          rw [hg]; exact hp
        exact h.2 p (inMemGet_store_subset _ _ _ _ _ this)

theorem setBacked_postExisting (st : NodeState) (sid : String) (now tmo : Nat)
    (h : SetBacked st) : SetBacked (postExisting st sid now tmo).1 := by
  unfold postExisting
  apply setBacked_getOrCreate
  refine ⟨h.1, ?_⟩
  intro p hp
  rcases updateActivity_mem _ _ _ _ hp with h1 | ⟨hk, v, hv⟩
  · exact h.2 p h1
  · rw [hk]
    exact h.2 (sid, v) hv

theorem setBacked_onClosed (st : NodeState) (sid : String)
    (h : SetBacked st) : SetBacked (onSessionClosed st sid) := by
  unfold onSessionClosed
  by_cases hc : sid ∈ st.cache
  · simp only [if_pos hc]
    refine ⟨?_, ?_⟩
    · intro x hx
      exact h.1 x (List.mem_of_mem_erase hx)
    · intro p hp
      exact h.2 p (jsMapDelete_subset _ _ _ hp)
  · simp only [if_neg hc]; exact h

theorem setBacked_deleteEndpoint (st : NodeState) (sid : String) (now tmo : Nat)
    (h : SetBacked st) : SetBacked (deleteEndpoint st sid now tmo).1 := by
  unfold deleteEndpoint
  rcases hg : getOrCreateInstances st sid now tmo with ⟨st1, r⟩
  have h1 : SetBacked st1 := by
    have := setBacked_getOrCreate st sid now tmo h
    rw [hg] at this
    exact this
  rcases r with e | u
  · exact h1
  · exact setBacked_onClosed _ _ h1

theorem setBacked_sweep (st : NodeState) (now tmo : Nat)
    (h : SetBacked st) : SetBacked (sweepInterval st now tmo) := by
  unfold sweepInterval
  refine ⟨?_, ?_⟩
  · intro x hx
    exact h.1 x (List.mem_of_mem_filter hx)
  · intro p hp
    exact h.2 p (List.mem_of_mem_filter hp)

/-- Every reachable node state satisfies the backing discipline. -/
theorem reach_setBacked (st : NodeState) (h : Reach st) : SetBacked st := by
  induction h with
  | init => exact setBacked_init
  | postInitStep st sid now fault _ ih => exact setBacked_postInit st sid now fault ih
  | postExistingStep st sid now tmo _ ih => exact setBacked_postExisting st sid now tmo ih
  | deleteStep st sid now tmo _ ih => exact setBacked_deleteEndpoint st sid now tmo ih
  | sweepStep st now tmo _ ih => exact setBacked_sweep st now tmo ih

/-- A successful resolve implies membership of the id in the ghost set
log: the resolve path only succeeds from the cache or the store, and
both are covered by the backing discipline. -/
theorem resolve_requires_set (st : NodeState) (sid : String) (now tmo : Nat)
    (hb : SetBacked st)
    (h : (getOrCreateInstances st sid now tmo).2 = .ok ()) : sid ∈ st.setLog := by
  unfold getOrCreateInstances at h
  by_cases hc : sid ∈ st.cache
  · exact hb.1 sid hc
  · simp only [if_neg hc] at h
    rcases hg : InMemorySessionStore.get st.store tmo sid now with ⟨store1, r⟩
    rw [hg] at h
    rcases r with _ | s
    · simp at h
    · have : (InMemorySessionStore.get st.store tmo sid now).2 = some s := by rw [hg]
      exact hb.2 _ (inMemGet_some_mem _ _ _ _ _ this)

end Server

-- ## Claim C1: creation ordering

/-- C1 counterexample: the claim says the durable record is persisted
via the Session Store's `set` before ANY live object — transport or MCP
server — is constructed. In the new-session flow of `POST /mcp` the
`StreamableHTTPServerTransport` is constructed (line 1775 of
`src/server.ts`) before `sessionStore.set` runs (line 1811), so the
`set` step does not precede the transport construction step. -/
theorem c1_counterexample :
    ¬ (Server.newSessionFlow.indexOf Server.InitStep.storeSet
        < Server.newSessionFlow.indexOf Server.InitStep.constructTransport) := by
  decide

/-- C1 (amended): in the new-session flow the durable record is
persisted before the MCP server instance is constructed and before the
live pair is inserted into the instance cache (the transport object,
however, is constructed before the `set`); and for every reachable node
state, a successful `getOrCreateInstances` resolve implies that a store
`set` for that session id completed earlier — no live object is ever
cached without a backing durable record. -/
theorem c1_persist_before_use :
    (Server.newSessionFlow.indexOf Server.InitStep.storeSet
        < Server.newSessionFlow.indexOf Server.InitStep.constructServer
      ∧ Server.newSessionFlow.indexOf Server.InitStep.storeSet
        < Server.newSessionFlow.indexOf Server.InitStep.cacheInsert)
    ∧ ∀ (st : Server.NodeState) (sid : String) (nowMs tmo : Nat),
        Server.Reach st →
        (Server.getOrCreateInstances st sid nowMs tmo).2 = .ok () →
        sid ∈ st.setLog := by
  refine ⟨by decide, ?_⟩
  intro st sid nowMs tmo hr hok
  exact Server.resolve_requires_set st sid nowMs tmo (Server.reach_setBacked st hr) hok

/-- C1 witness: a freshly created session "S1" resolves successfully and
its id is indeed in the set log of the reachable state. -/
theorem c1_witness :
    (Server.getOrCreateInstances
        (Server.postInit Server.NodeState.init "S1" 0 none).1 "S1" 5 1800000).2 = .ok ()
    ∧ "S1" ∈ (Server.postInit Server.NodeState.init "S1" 0 none).1.setLog := by
  refine ⟨by decide, ?_⟩
  exact c1_persist_before_use.2 _ "S1" 5 1800000
    (Server.Reach.postInitStep Server.NodeState.init "S1" 0 none Server.Reach.init)
    (by decide)

-- ## Claim C3: unknown session ids

/-- C3 counterexample: a session created at time 0 with idle timeout 10
is expired at time 100 — the session store's own `get` reports it as
absent — yet the `POST /mcp` existing-session path still resolves it
successfully (the preceding `updateActivity` refreshes `lastActivity`
and the live pair is still cached), instead of failing with
`SessionNotFound` as the claim requires for expired ids. -/
theorem c3_counterexample :
    (Server.InMemorySessionStore.get
        ((Server.postInit Server.NodeState.init "S1" 0 none).1).store 10 "S1" 100).2 = none
    ∧ (Server.postExisting
        (Server.postInit Server.NodeState.init "S1" 0 none).1 "S1" 100 10).2 = .ok () := by
  decide

/-- C3 (amended): a request with a session id that has no record in the
store (never created, explicitly deleted, or already expired and swept)
and no cached instances fails with `SessionNotFound` and leaves the node
state completely unchanged — no session is silently created. A session
past its idle timeout but still present (cached or stored) is
resurrected by the activity update instead. -/
theorem c3_unknown_session_rejected :
    ∀ (st : Server.NodeState) (sid : String) (nowMs tmo : Nat),
      sid ∉ st.cache → jsMapGet st.store sid = none →
      Server.postExisting st sid nowMs tmo
        = (st, .error (Server.AppError.sessionNotFound
            "Session does not exist or has expired." sid)) := by
  intro st sid nowMs tmo hc hg
  unfold Server.postExisting Server.getOrCreateInstances
    Server.InMemorySessionStore.updateActivity Server.InMemorySessionStore.get
  rw [hg]
  simp [hc, hg]

/-- C3 witness: a never-created id on a fresh node. -/
theorem c3_witness :
    Server.postExisting Server.NodeState.init "ghost" 5 1800000
      = (Server.NodeState.init, .error (Server.AppError.sessionNotFound
          "Session does not exist or has expired." "ghost")) :=
  c3_unknown_session_rejected Server.NodeState.init "ghost" 5 1800000
    (by simp [Server.NodeState.init]) rfl

-- ## Claim C4: failing durable write during creation

/-- C4: when the shared-backend `set` fails during session creation, the
new-session flow aborts with the `StorageOperationFailedError` that
wraps the low-level cause, the instance cache is left unchanged (no live
object is cached for the id), and the error response rendered at the
boundary carries the fixed message and the session-id context but never
the wrapped cause (the response is the same whatever the cause is). -/
theorem c4_set_failure_storage_error :
    ∀ (st : Server.NodeState) (sid cause cause2 : String) (nowMs : Nat),
      Server.postInit st sid nowMs (some cause)
        = (st, .error (Server.storageSetError cause sid))
      ∧ (Server.postInit st sid nowMs (some cause)).1.cache = st.cache
      ∧ Server.globalErrorHandler (Server.storageSetError cause sid)
          = ⟨-32603, "Failed to save session state", sid⟩
      ∧ Server.globalErrorHandler (Server.storageSetError cause sid)
          = Server.globalErrorHandler (Server.storageSetError cause2 sid) := by
  intro st sid cause cause2 nowMs
  exact ⟨rfl, rfl, rfl, rfl⟩

-- ## Claim C5: read/write failure propagation

/-- C5 counterexample: `updateActivity` performs a durable write whose
failure does NOT surface: with a failing `SET`, the inner
`RedisSessionStore.set` errors, yet `updateActivity` returns normally
with the keyspace unchanged; likewise a failing `DEL` is swallowed by
`delete`. This refutes "write failures always propagate to the caller /
every failing durable write surfaces as an error". -/
theorem c5_counterexample :
    Server.RedisSessionStore.set ⟨false, some "boom", true⟩
        [("S1", ⟨"S1", 0, 0, 1, []⟩)] "S1" ⟨"S1", 0, 99, 2, []⟩
      = .error (Server.storageSetError "boom" "S1")
    ∧ Server.RedisSessionStore.updateActivity ⟨false, some "boom", true⟩
        [("S1", ⟨"S1", 0, 0, 1, []⟩)] "S1" 99
      = [("S1", ⟨"S1", 0, 0, 1, []⟩)]
    ∧ Server.RedisSessionStore.delete ⟨false, some "boom", true⟩
        [("S1", ⟨"S1", 0, 0, 1, []⟩)] "S1"
      = [("S1", ⟨"S1", 0, 0, 1, []⟩)] := by
  refine ⟨rfl, ?_, rfl⟩
  decide

/-- C5 (amended): the Session Store's failure policy is per-operation:
`get` swallows read failures and reports absence (fail-open); `set`
propagates write failures as a `StorageOperationFailedError`
(fail-closed); but `delete` and `updateActivity` swallow their write
failures and leave the keyspace unchanged (best-effort / no-op). -/
theorem c5_propagation_policy :
    ∀ (f : Server.RedisFaults) (kv : List (String × Server.SessionData))
      (sid : String) (d : Server.SessionData) (nowMs : Nat) (cause : String),
      (f.failGet = true → Server.RedisSessionStore.get f kv sid = none)
      ∧ (f.failSet = some cause →
          Server.RedisSessionStore.set f kv sid d
            = .error (Server.storageSetError cause sid))
      ∧ (f.failDel = true → Server.RedisSessionStore.delete f kv sid = kv)
      ∧ (f.failSet = some cause →
          Server.RedisSessionStore.updateActivity f kv sid nowMs = kv) := by
  intro f kv sid d nowMs cause
  refine ⟨?_, ?_, ?_, ?_⟩
  · intro h
    unfold Server.RedisSessionStore.get
    rw [h]
    rfl
  · intro h
    unfold Server.RedisSessionStore.set
    rw [h]
  · intro h
    unfold Server.RedisSessionStore.delete
    rw [h]
    rfl
  · intro h
    unfold Server.RedisSessionStore.updateActivity Server.RedisSessionStore.get
    rcases hfg : f.failGet with _ | _
    · simp only [Bool.false_eq_true, if_false]
      rcases hg : jsMapGet kv sid with _ | s
      · rfl
      · unfold Server.RedisSessionStore.set
        rw [h]
    · simp only [if_true]

/-- C5 witness: the four policy clauses at a concrete faulty backend. -/
theorem c5_witness :
    Server.RedisSessionStore.get ⟨true, some "boom", true⟩ [] "S1" = none
    ∧ Server.RedisSessionStore.set ⟨true, some "boom", true⟩ []
        "S1" ⟨"S1", 0, 0, 1, []⟩ = .error (Server.storageSetError "boom" "S1")
    ∧ Server.RedisSessionStore.delete ⟨true, some "boom", true⟩ [] "S1" = []
    ∧ Server.RedisSessionStore.updateActivity ⟨true, some "boom", true⟩ [] "S1" 7 = [] := by
  have h := c5_propagation_policy ⟨true, some "boom", true⟩ [] "S1" ⟨"S1", 0, 0, 1, []⟩ 7 "boom"
  exact ⟨h.1 rfl, h.2.1 rfl, h.2.2.1 rfl, h.2.2.2 rfl⟩

-- ## Claim C9: replay of unknown ids

/-- C9: `replayEventsAfter` with an id that is not in the event map
(unknown, or known once but already evicted) returns the empty result —
no stream id, no sink deliveries, and no error (the operation is total
and takes the early-return branch). -/
theorem c9_replay_unknown_empty (M : Type) [DecidableEq M]
    (s : Server.InMemoryEventStore M) (lastEventId : List Nat)
    (h : jsMapHas s.events lastEventId = false) :
    s.replayEventsAfter lastEventId = ([], []) := by
  unfold Server.InMemoryEventStore.replayEventsAfter
  rw [h]
  simp

/-- C9 witness: replay of a never-issued id against a store holding one
event. -/
theorem c9_witness :
    (((Server.InMemoryEventStore.init Nat).storeEvent
        (strN "s") 1 2 2 (strN "ab")).1).replayEventsAfter (strN "unknown-id") = ([], []) :=
  c9_replay_unknown_empty Nat _ (strN "unknown-id") (by decide)

-- ## Event-id structure lemmas

theorem append_cons_inj (c : Nat) (a1 b1 a2 b2 : List Nat)
    (h1 : c ∉ a1) (h2 : c ∉ a2) (h : a1 ++ c :: b1 = a2 ++ c :: b2) :
    a1 = a2 ∧ b1 = b2 := by
  induction a1 generalizing a2 with
  | nil =>
    cases a2 with
    | nil => simpa using h
    | cons d ds =>
      simp only [List.nil_append, List.cons_append, List.cons.injEq] at h
      exact absurd (h.1 ▸ List.mem_cons_self d ds) h2
  | cons y ys ih =>
    cases a2 with
    | nil =>
      simp only [List.cons_append, List.nil_append, List.cons.injEq] at h
      exact absurd (h.1.symm ▸ List.mem_cons_self y ys) h1
    | cons d ds =>
      simp only [List.cons_append, List.cons.injEq] at h
      have h1' : c ∉ ys := fun hm => h1 (List.mem_cons_of_mem _ hm)
      have h2' : c ∉ ds := fun hm => h2 (List.mem_cons_of_mem _ hm)
      rcases ih ds h1' h2' h.2 with ⟨ha, hb⟩
      exact ⟨by rw [h.1, ha], hb⟩

theorem reverse_append_cons (a : List Nat) (c : Nat) (b : List Nat) :
    (a ++ c :: b).reverse = b.reverse ++ c :: a.reverse := by
  simp

theorem append_cons_inj_right (c : Nat) (a1 b1 a2 b2 : List Nat)
    (h1 : c ∉ b1) (h2 : c ∉ b2) (h : a1 ++ c :: b1 = a2 ++ c :: b2) :
    a1 = a2 ∧ b1 = b2 := by
  have hrev := congrArg List.reverse h
  rw [reverse_append_cons, reverse_append_cons] at hrev
  have h1r : c ∉ b1.reverse := by simpa using h1
  have h2r : c ∉ b2.reverse := by simpa using h2
  rcases append_cons_inj c _ _ _ _ h1r h2r hrev with ⟨hb, ha⟩
  exact ⟨List.reverse_injective ha, List.reverse_injective hb⟩

theorem usc_not_digit : isDigitCode usc = false := by decide

theorem natChars_no_usc (n : Nat) : usc ∉ natChars n := by
  intro hm
  have hall := natChars_all_digit n
  rw [List.all_eq_true] at hall
  have := hall usc hm
  rw [usc_not_digit] at this
  exact Bool.false_ne_true this

theorem generateEventId_assoc (s : List Nat) (t : Nat) (x : List Nat) :
    Server.generateEventId s t x = (s ++ usc :: natChars t) ++ usc :: x := by
  unfold Server.generateEventId
  simp

theorem generateEventId_inj (s1 s2 : List Nat) (t1 t2 : Nat) (x1 x2 : List Nat)
    (hx1 : usc ∉ x1) (hx2 : usc ∉ x2)
    (h : Server.generateEventId s1 t1 x1 = Server.generateEventId s2 t2 x2) :
    s1 = s2 ∧ t1 = t2 ∧ x1 = x2 := by
  rw [generateEventId_assoc, generateEventId_assoc] at h
  rcases append_cons_inj_right usc _ _ _ _ hx1 hx2 h with ⟨hA, hx⟩
  rcases append_cons_inj_right usc _ _ _ _ (natChars_no_usc t1) (natChars_no_usc t2) hA
    with ⟨hs, ht⟩
  exact ⟨hs, natChars_injective _ _ ht, hx⟩

theorem jsMapHas_append [DecidableEq κ] (a b : List (κ × ν)) (k : κ) :
    jsMapHas (a ++ b) k = (jsMapHas a k || jsMapHas b k) := by
  simp [jsMapHas, List.any_append]

/-- Effect of a `storeEvent` whose generated id is fresh and which does
not overflow the cap: the entry is appended at the end, nothing else
changes. -/
theorem storeEvent_fresh (M : Type) [DecidableEq M] (s : Server.InMemoryEventStore M)
    (sid : List Nat) (m : M) (t r : Nat) (x : List Nat)
    (hf : jsMapHas s.events (Server.generateEventId sid t x) = false)
    (hcap : s.events.length + 1 ≤ s.maxEvents) :
    (s.storeEvent sid m t r x).1.events
        = s.events ++ [(Server.generateEventId sid t x, ⟨sid, m, r⟩)]
    ∧ (s.storeEvent sid m t r x).1.maxEvents = s.maxEvents
    ∧ (s.storeEvent sid m t r x).1.maxAge = s.maxAge
    ∧ (s.storeEvent sid m t r x).2 = Server.generateEventId sid t x := by
  have hfresh := jsMapSet_fresh s.events (Server.generateEventId sid t x)
    (⟨sid, m, r⟩ : Server.EventRec M) hf
  simp only [Server.InMemoryEventStore.storeEvent, hfresh, List.length_append,
    List.length_cons, List.length_nil, Nat.zero_add]
  rw [if_neg (by omega)]
  simp

-- ## Claim C6: event-id uniqueness

/-- C6 counterexample: two distinct `storeEvent` calls that read the
same millisecond clock value and draw the same random suffix produce the
SAME event id, and the second call silently overwrites the first stored
event (the store ends with a single entry holding the second payload).
Event-id uniqueness is only probabilistic, not an invariant of the
code. -/
theorem c6_counterexample :
    ((Server.InMemoryEventStore.init Nat).storeEvent (strN "s1") 10 5 5 (strN "xy")).2
      = ((((Server.InMemoryEventStore.init Nat).storeEvent (strN "s1") 10 5 5 (strN "xy")).1).storeEvent
          (strN "s1") 20 5 5 (strN "xy")).2
    ∧ ((((Server.InMemoryEventStore.init Nat).storeEvent (strN "s1") 10 5 5 (strN "xy")).1).storeEvent
          (strN "s1") 20 5 5 (strN "xy")).1.events
        = [(strN "s1" ++ usc :: natChars 5 ++ usc :: strN "xy", ⟨strN "s1", 20, 5⟩)] := by
  constructor
  · rfl
  · decide

/-- C6 (amended): whenever two `storeEvent` calls differ in stream id,
clock value or random suffix (suffixes being underscore-free, as base-36
suffixes always are), the generated ids differ, and after both appends
each id still maps to its own record — no overwrite (assuming both ids
are new to the store and the cap is not reached, so no eviction
interferes). -/
theorem c6_distinct_inputs_distinct_ids (M : Type) [DecidableEq M]
    (s : Server.InMemoryEventStore M) (sid1 sid2 : List Nat) (m1 m2 : M)
    (t1 r1 t2 r2 : Nat) (x1 x2 : List Nat)
    (hx1 : usc ∉ x1) (hx2 : usc ∉ x2)
    (hne : ¬ (sid1 = sid2 ∧ t1 = t2 ∧ x1 = x2))
    (hf1 : jsMapHas s.events (Server.generateEventId sid1 t1 x1) = false)
    (hf2 : jsMapHas s.events (Server.generateEventId sid2 t2 x2) = false)
    (hcap : s.events.length + 2 ≤ s.maxEvents) :
    (s.storeEvent sid1 m1 t1 r1 x1).2
      ≠ ((s.storeEvent sid1 m1 t1 r1 x1).1.storeEvent sid2 m2 t2 r2 x2).2
    ∧ jsMapGet ((s.storeEvent sid1 m1 t1 r1 x1).1.storeEvent sid2 m2 t2 r2 x2).1.events
        (s.storeEvent sid1 m1 t1 r1 x1).2 = some ⟨sid1, m1, r1⟩
    ∧ jsMapGet ((s.storeEvent sid1 m1 t1 r1 x1).1.storeEvent sid2 m2 t2 r2 x2).1.events
        ((s.storeEvent sid1 m1 t1 r1 x1).1.storeEvent sid2 m2 t2 r2 x2).2
      = some ⟨sid2, m2, r2⟩ := by
  have hid : Server.generateEventId sid1 t1 x1 ≠ Server.generateEventId sid2 t2 x2 := by
    intro he
    exact hne (generateEventId_inj _ _ _ _ _ _ hx1 hx2 he)
  rcases storeEvent_fresh M s sid1 m1 t1 r1 x1 hf1 (by omega)
    with ⟨he1, hm1, ha1, hr1⟩
  have hf2' : jsMapHas (s.storeEvent sid1 m1 t1 r1 x1).1.events
      (Server.generateEventId sid2 t2 x2) = false := by
    rw [he1, jsMapHas_append, hf2]
    simp only [Bool.false_or, jsMapHas, List.any_cons, List.any_nil, Bool.or_false,
      decide_eq_false_iff_not]
    exact hid
  have hlen1 : (s.storeEvent sid1 m1 t1 r1 x1).1.events.length = s.events.length + 1 := by
    rw [he1]; simp
  rcases storeEvent_fresh M _ sid2 m2 t2 r2 x2 hf2' (by rw [hlen1, hm1]; omega)
    with ⟨he2, _, _, hr2⟩
  refine ⟨?_, ?_, ?_⟩
  · rw [hr1, hr2]; exact hid
  · rw [he2, he1, hr1, List.append_assoc]
    rw [jsMapGet_append_right _ _ _ hf1]
    simp [jsMapGet]
  · rw [he2, he1, hr2, List.append_assoc]
    rw [jsMapGet_append_right _ _ _ hf2]
    simp only [List.cons_append, List.nil_append, jsMapGet]
    rw [if_neg hid]
    simp [jsMapGet]

/-- C6 witness: two same-stream appends one millisecond apart. -/
theorem c6_witness :
    ((Server.InMemoryEventStore.init Nat).storeEvent (strN "s1") 10 5 5 (strN "xy")).2
      ≠ (((Server.InMemoryEventStore.init Nat).storeEvent (strN "s1") 10 5 5 (strN "xy")).1.storeEvent
          (strN "s1") 20 6 6 (strN "xy")).2 :=
  (c6_distinct_inputs_distinct_ids Nat (Server.InMemoryEventStore.init Nat)
    (strN "s1") (strN "s1") 10 20 5 5 6 6 (strN "xy") (strN "xy")
    (by decide) (by decide) (by simp) (by decide) (by decide) (by decide)).1

-- ## Sorting facts for the eviction path

theorem jsMapGet_jsMapSet_ne [DecidableEq κ] (m : List (κ × ν)) (k k' : κ) (v : ν)
    (h : k' ≠ k) : jsMapGet (jsMapSet m k v) k' = jsMapGet m k' := by
  induction m with
  | nil =>
    simp only [jsMapSet, jsMapGet]
    rw [if_neg (fun hc => h hc.symm)]
  | cons q rest ih =>
    by_cases he : q.1 = k
    · simp only [jsMapSet, if_pos he, jsMapGet]
      have hq : q.1 ≠ k' := by
        rw [he]
        exact fun hc => h hc.symm
      rw [if_neg hq, if_neg (fun hc => h hc.symm)]
    · simp only [jsMapSet, if_neg he, jsMapGet]
      by_cases hq : q.1 = k'
      · rw [if_pos hq, if_pos hq]
      · rw [if_neg hq, if_neg hq]
        exact ih

-- ## Claim C7: bounding policy of the two event-log backends

/-- C7 counterexample: with the cap set to 2, stream "B" receives the
globally oldest event (id 1), then stream "A" receives three newer
events (ids 2, 3, 4). The `XADD MAXLEN` trim of the Redis backend runs
per stream key: "A" evicts its own oldest event (id 2) while "B" keeps
id 1, even though the total (4) exceeded the cap and id 1 is strictly
the oldest event overall. Eviction is therefore a per-stream cap, not a
global oldest-first cap (the trim logic is identical for the code's
default cap of 10000). -/
theorem c7_counterexample :
    jsMapGet (((((Server.RedisEventStore.mk [] [] 86400000 2).storeEvent
        (strN "B") 0 1).1.storeEvent (strN "A") 0 2).1.storeEvent
        (strN "A") 0 3).1.storeEvent (strN "A") 0 4).1.streams
      (Server.streamKeyOf (strN "B")) = some [(1, 0)]
    ∧ jsMapGet (((((Server.RedisEventStore.mk [] [] 86400000 2).storeEvent
        (strN "B") 0 1).1.storeEvent (strN "A") 0 2).1.storeEvent
        (strN "A") 0 3).1.storeEvent (strN "A") 0 4).1.streams
      (Server.streamKeyOf (strN "A")) = some [(3, 0), (4, 0)] := by
  constructor <;> decide

/-- C7 (amended): the two backends bound the log differently. The
in-memory store enforces a single global cap: when an append makes the
map exceed `maxEvents`, exactly the overflow count of entries is
deleted, chosen strictly oldest-first by record timestamp regardless of
stream (every evicted entry's timestamp is at most every surviving
entry's), leaving exactly `maxEvents` entries. The Redis store instead
trims each `mcp_events:streamId` key on its own: an append to one
stream never touches any other stream's entries, so its cap is
per-stream. -/
theorem c7_eviction_policy (M : Type) [DecidableEq M]
    (s : Server.InMemoryEventStore M) (sid : List Nat) (m : M) (t r : Nat) (x : List Nat)
    (hnd : (s.events.map Prod.fst).Nodup)
    (hov : s.maxEvents
      < (jsMapSet s.events (Server.generateEventId sid t x) ⟨sid, m, r⟩).length)
    (rs : Server.RedisEventStore M) (sid2 : List Nat) (m2 : M) (rid : Nat)
    (key2 : List Nat) (hk : key2 ≠ Server.streamKeyOf sid2) :
    ((s.storeEvent sid m t r x).1.events.length = s.maxEvents
      ∧ ∀ e ∈ jsMapSet s.events (Server.generateEventId sid t x) ⟨sid, m, r⟩,
          e ∉ (s.storeEvent sid m t r x).1.events →
          ∀ kp ∈ (s.storeEvent sid m t r x).1.events,
            e.2.timestamp ≤ kp.2.timestamp)
    ∧ jsMapGet (rs.storeEvent sid2 m2 rid).1.streams key2 = jsMapGet rs.streams key2 := by
  set tlt : (List Nat × Server.EventRec M) → (List Nat × Server.EventRec M) → Bool :=
    fun a b => decide (a.2.timestamp < b.2.timestamp) with htlt
  set events1 := jsMapSet s.events (Server.generateEventId sid t x)
    (⟨sid, m, r⟩ : Server.EventRec M) with hev1
  set sorted := sortStable tlt events1 with hsorted
  set d := events1.length - s.maxEvents with hd
  set toDelete := (sorted.take d).map Prod.fst with htd
  have hkeep : (s.storeEvent sid m t r x).1.events
      = events1.filter (fun e => decide (e.1 ∉ toDelete)) := by
    simp only [Server.InMemoryEventStore.storeEvent]
    rw [if_pos hov]
  have hperm : List.Perm sorted events1 := sortStable_perm tlt events1
  have hnd1 : (events1.map Prod.fst).Nodup := jsMapSet_nodup_keys _ _ _ hnd
  have hndS : (sorted.map Prod.fst).Nodup := ((hperm.map Prod.fst).nodup_iff).mpr hnd1
  have hpw : sorted.Pairwise (fun a b => tlt b a = false) :=
    sortStable_sorted tlt
      (fun a b h => by
        simp only [htlt, decide_eq_true_eq] at h
        simp only [htlt, decide_eq_false_iff_not]
        omega)
      (fun a b c h1 h2 => by
        simp only [htlt, decide_eq_false_iff_not] at h1 h2 ⊢
        omega)
      events1
  have hsplit : sorted.take d ++ sorted.drop d = sorted := List.take_append_drop d sorted
  have hcross : ∀ a ∈ sorted.take d, ∀ b ∈ sorted.drop d, tlt b a = false := by
    have := hpw
    rw [← hsplit] at this
    exact fun a ha b hb => (List.pairwise_append.mp this).2.2 a ha b hb
  have hkeysplit : (sorted.take d).map Prod.fst ++ (sorted.drop d).map Prod.fst
      = sorted.map Prod.fst := by
    rw [← List.map_append, hsplit]
  have hdisj : ∀ a ∈ (sorted.take d).map Prod.fst,
      a ∉ (sorted.drop d).map Prod.fst := by
    have := hndS
    rw [← hkeysplit] at this
    exact fun a ha hb => (List.disjoint_of_nodup_append this) ha hb
  have hmemT_del : ∀ e ∈ sorted.take d, e.1 ∈ toDelete := by
    intro e he
    exact List.mem_map.mpr ⟨e, he, rfl⟩
  have hmemD_keep : ∀ e ∈ sorted.drop d, e.1 ∉ toDelete := by
    intro e he hc
    exact hdisj e.1 hc (List.mem_map.mpr ⟨e, he, rfl⟩)
  have hfilterT : (sorted.take d).filter (fun e => decide (e.1 ∉ toDelete)) = [] := by
    rw [List.filter_eq_nil_iff]
    intro e he
    simp only [decide_eq_true_eq, Decidable.not_not]
    exact hmemT_del e he
  have hfilterD : (sorted.drop d).filter (fun e => decide (e.1 ∉ toDelete))
      = sorted.drop d := by
    rw [List.filter_eq_self]
    intro e he
    simp only [decide_eq_true_eq]
    exact hmemD_keep e he
  have hfilterS : sorted.filter (fun e => decide (e.1 ∉ toDelete)) = sorted.drop d := by
    rw [← hsplit, List.filter_append, hfilterT, hfilterD, List.nil_append,
      List.take_append_drop]
  have hpermF : List.Perm (sorted.filter (fun e => decide (e.1 ∉ toDelete)))
      (events1.filter (fun e => decide (e.1 ∉ toDelete))) := hperm.filter _
  refine ⟨⟨?_, ?_⟩, ?_⟩
  · rw [hkeep, ← hpermF.length_eq, hfilterS, List.length_drop, hperm.length_eq]
    omega
  · intro e he hnot kp hkp
    rw [hkeep] at hnot hkp
    have hPe : e.1 ∈ toDelete := by
      by_contra hc
      exact hnot (List.mem_filter.mpr ⟨he, by simpa using hc⟩)
    have heT : e ∈ sorted.take d := by
      have hs : e ∈ sorted := hperm.mem_iff.mpr he
      rcases List.mem_append.mp (by rw [hsplit]; exact hs) with h1 | h1
      · exact h1
      · exact absurd hPe (hmemD_keep e h1)
    have hkpD : kp ∈ sorted.drop d := by
      have hk1 := List.mem_filter.mp hkp
      have hs : kp ∈ sorted := hperm.mem_iff.mpr hk1.1
      rcases List.mem_append.mp (by rw [hsplit]; exact hs) with h1 | h1
      · exact absurd (hmemT_del kp h1) (by simpa using hk1.2)
      · exact h1
    have := hcross e heT kp hkpD
    simp only [htlt, decide_eq_false_iff_not] at this
    omega
  · simp only [Server.RedisEventStore.storeEvent]
    exact jsMapGet_jsMapSet_ne _ _ _ _ hk

/-- C7 witness: a two-event overflow of a capacity-1 in-memory store
(the older entry of the other stream is evicted globally), and a Redis
append that leaves an unrelated stream untouched. -/
theorem c7_witness :
    ((Server.InMemoryEventStore.mk
        [(Server.generateEventId (strN "B") 1 (strN "aa"), ⟨strN "B", 0, 1⟩)] 86400000 1).storeEvent
        (strN "A") 7 2 2 (strN "bb")).1.events.length = 1
    ∧ jsMapGet ((Server.RedisEventStore.init Nat).storeEvent (strN "A") 7 5).1.streams
        (Server.streamKeyOf (strN "B"))
      = jsMapGet (Server.RedisEventStore.init Nat).streams (Server.streamKeyOf (strN "B")) := by
  have h := c7_eviction_policy Nat
    (Server.InMemoryEventStore.mk
      [(Server.generateEventId (strN "B") 1 (strN "aa"), ⟨strN "B", 0, 1⟩)] 86400000 1)
    (strN "A") 7 2 2 (strN "bb") (by decide) (by decide)
    (Server.RedisEventStore.init Nat) (strN "A") 7 5
    (Server.streamKeyOf (strN "B")) (by decide)
  exact ⟨h.1.1, h.2⟩

-- ## Claim C10: strict event-id parsing in the production store

/-- C10: in the production in-memory event store, a replay can come back
empty even for an id that IS present in the event map: whenever the id
does not match the `^([a-f0-9-]{36})_(\d+)_([a-z0-9]+)$/i` pattern
(i.e. its stream prefix is not UUID-shaped), `getStreamIdFromEventId`
yields the empty string and `replayEventsAfter` returns the empty
result. The simpler variant instead takes whatever precedes the first
underscore, so the very same store state replays the later "abc"-stream
event there (second conjunct, concrete contrast). -/
theorem c10_strict_id_parsing :
    (∀ (M : Type) (_inst : DecidableEq M) (s : Server.InMemoryEventStore M)
        (eid : List Nat),
        jsMapHas s.events eid = true →
        Server.eventIdMatch eid = false →
        s.replayEventsAfter eid = ([], []))
    ∧ (Server.eventIdMatch
          (Server.generateEventId (strN "abc") 1 (strN "x")) = false
        ∧ jsMapHas ((((Server.InMemoryEventStore.init Nat).storeEvent
              (strN "abc") 7 1 1 (strN "x")).1.storeEvent
              (strN "abc") 8 2 2 (strN "y")).1).events
            (Server.generateEventId (strN "abc") 1 (strN "x")) = true
        ∧ ((((Server.InMemoryEventStore.init Nat).storeEvent
              (strN "abc") 7 1 1 (strN "x")).1.storeEvent
              (strN "abc") 8 2 2 (strN "y")).1).replayEventsAfter
            (Server.generateEventId (strN "abc") 1 (strN "x")) = ([], [])
        ∧ SimpleServer.replayEventsAfter
            (((Server.InMemoryEventStore.init Nat).storeEvent
              (strN "abc") 7 1 1 (strN "x")).1.storeEvent
              (strN "abc") 8 2 2 (strN "y")).1
            (Server.generateEventId (strN "abc") 1 (strN "x"))
          = (strN "abc", [(Server.generateEventId (strN "abc") 2 (strN "y"), 8)])) := by
  constructor
  · intro M _inst s eid hhas hmatch
    unfold Server.InMemoryEventStore.replayEventsAfter
    rw [hhas]
    rcases hemp : eid.isEmpty with _ | _
    · simp only [Bool.false_or, Bool.not_true, if_false]
      unfold Server.getStreamIdFromEventId
      rw [hmatch]
      simp
    · simp
  · exact ⟨by decide, by decide, by decide, by decide⟩

/-- C10 witness: the general clause applied at the concrete two-event
"abc" store. -/
theorem c10_witness :
    ((((Server.InMemoryEventStore.init Nat).storeEvent
        (strN "abc") 7 1 1 (strN "x")).1.storeEvent
        (strN "abc") 8 2 2 (strN "y")).1).replayEventsAfter
      (Server.generateEventId (strN "abc") 1 (strN "x")) = ([], []) :=
  c10_strict_id_parsing.1 Nat inferInstance
    (((Server.InMemoryEventStore.init Nat).storeEvent
        (strN "abc") 7 1 1 (strN "x")).1.storeEvent
        (strN "abc") 8 2 2 (strN "y")).1
    (Server.generateEventId (strN "abc") 1 (strN "x")) (by decide) (by decide)

-- ## Suffix lemmas for the history ring buffer

theorem takeLast_all (n : Nat) (l : List α) (h : l.length ≤ n) : takeLast n l = l := by
  unfold takeLast
  have h0 : l.length - n = 0 := by omega
  rw [h0, List.drop_zero]

theorem takeLast_drop_front (n k : Nat) (zs : List α) (h : k + n ≤ zs.length) :
    takeLast n (zs.drop k) = takeLast n zs := by
  unfold takeLast
  rw [List.drop_drop, List.length_drop]
  congr 1
  omega

theorem pushCalculationTrim_length (h : List Server.Calculation)
    (c : Server.Calculation) (hh : h.length ≤ 50) :
    (Server.pushCalculationTrim h c).length ≤ 50 := by
  unfold Server.pushCalculationTrim
  by_cases hc : 50 < (h ++ [c]).length
  · rw [if_pos hc]
    simp only [List.length_drop, List.length_append, List.length_cons, List.length_nil]
    omega
  · rw [if_neg hc]
    simp only [List.length_append, List.length_cons, List.length_nil] at hc ⊢
    omega

theorem foldl_pushCalculationTrim (l : List Server.Calculation)
    (h : List Server.Calculation) (hh : h.length ≤ 50) :
    List.foldl Server.pushCalculationTrim h l = takeLast 50 (h ++ l) := by
  induction l generalizing h with
  | nil => rw [List.append_nil, List.foldl_nil, takeLast_all _ _ hh]
  | cons c cs ih =>
    rw [List.foldl_cons, ih _ (pushCalculationTrim_length h c hh)]
    have hre : h ++ c :: cs = (h ++ [c]) ++ cs := by simp
    rw [hre]
    unfold Server.pushCalculationTrim
    by_cases hc : 50 < (h ++ [c]).length
    · rw [if_pos hc, ← List.drop_append_of_le_length (by simp)]
      apply takeLast_drop_front
      simp only [List.length_append, List.length_cons, List.length_nil] at hc ⊢
      omega
    · rw [if_neg hc]

-- ## Claim C8: the 50-entry history ring buffer

/-- C8: the session history is a 50-capacity ring buffer. The
single-record update of `calculate`/`advanced_calculate` preserves
`length ≤ 50`; the batch update of `batch_calculate` always ends with
`length ≤ 50`; and appending the records of any run of more than 50
single-record updates to a fresh session leaves exactly the 50 most
recent records, in order (the oldest were evicted first). -/
theorem c8_history_ring_buffer :
    (∀ (h : List Server.Calculation) (c : Server.Calculation),
        h.length ≤ 50 → (Server.pushCalculationTrim h c).length ≤ 50)
    ∧ (∀ (h cs : List Server.Calculation), (Server.batchAppendTrim h cs).length ≤ 50)
    ∧ (∀ l : List Server.Calculation, 50 < l.length →
        List.foldl Server.pushCalculationTrim [] l = takeLast 50 l
        ∧ (List.foldl Server.pushCalculationTrim [] l).length = 50) := by
  refine ⟨pushCalculationTrim_length, ?_, ?_⟩
  · intro h cs
    unfold Server.batchAppendTrim
    simp only [List.length_drop]
    omega
  · intro l hl
    have heq : List.foldl Server.pushCalculationTrim [] l = takeLast 50 l := by
      have := foldl_pushCalculationTrim l [] (by simp)
      rwa [List.nil_append] at this
    refine ⟨heq, ?_⟩
    rw [heq]
    unfold takeLast
    simp only [List.length_drop]
    omega

/-- C8 witness: one in-bounds push, and a 51-record run collapsing to
the 50 most recent. -/
theorem c8_witness :
    (Server.pushCalculationTrim [] ⟨"", "", 0, "", [], 0⟩).length ≤ 50
    ∧ List.foldl Server.pushCalculationTrim []
        (List.replicate 51 (⟨"", "", 0, "", [], 0⟩ : Server.Calculation))
      = takeLast 50 (List.replicate 51 (⟨"", "", 0, "", [], 0⟩ : Server.Calculation)) :=
  ⟨c8_history_ring_buffer.1 [] ⟨"", "", 0, "", [], 0⟩ (by decide),
    (c8_history_ring_buffer.2.2 (List.replicate 51 ⟨"", "", 0, "", [], 0⟩) (by decide)).1⟩

-- ## Supporting lemmas for whole-run replay exactness

theorem one_le_natLen (n : Nat) : 1 ≤ natLen n := by
  unfold natLen
  cases n with
  | zero => simp [natLenFuel]
  | succ m =>
    simp only [natLenFuel]
    split <;> omega

theorem natChars_ne_nil (n : Nat) : natChars n ≠ [] := by
  intro h
  have hl := length_natChars n
  rw [h] at hl
  have := one_le_natLen n
  simp at hl
  omega

theorem generateEventId_ne_nil (sid : List Nat) (t : Nat) (x : List Nat) :
    Server.generateEventId sid t x ≠ [] := by
  intro h
  have := congrArg List.length h
  simp [Server.generateEventId] at this

theorem takeWhile_all_append (p : Nat → Bool) (a : List Nat) (c : Nat) (b : List Nat)
    (ha : ∀ y ∈ a, p y = true) (hc : p c = false) :
    (a ++ c :: b).takeWhile p = a ∧ (a ++ c :: b).dropWhile p = c :: b := by
  induction a with
  | nil =>
    simp [List.takeWhile_cons, List.dropWhile_cons, hc]
  | cons y ys ih =>
    have hy : p y = true := ha y (List.mem_cons_self _ _)
    have ih' := ih (fun z hz => ha z (List.mem_cons_of_mem _ hz))
    simp [List.takeWhile_cons, List.dropWhile_cons, hy, ih'.1, ih'.2]

theorem getStreamId_generateEventId (S : List Nat) (t : Nat) (x : List Nat)
    (hS1 : S.length = 36) (hS2 : S.all isHexDashCode = true)
    (hx1 : x ≠ []) (hx2 : x.all isSfxCode = true) :
    Server.eventIdMatch (Server.generateEventId S t x) = true
    ∧ Server.getStreamIdFromEventId (Server.generateEventId S t x) = S := by
  have hassoc : Server.generateEventId S t x
      = S ++ ((usc :: natChars t) ++ usc :: x) := by
    unfold Server.generateEventId
    rw [List.append_assoc]
  have htake : (Server.generateEventId S t x).take 36 = S := by
    rw [hassoc]
    exact List.take_left' hS1
  have hdrop : (Server.generateEventId S t x).drop 36 = usc :: (natChars t ++ usc :: x) := by
    rw [hassoc, List.drop_left' hS1]
    simp
  have hdig : ∀ y ∈ natChars t, isDigitCode y = true := by
    intro y hy
    exact List.all_eq_true.mp (natChars_all_digit t) y hy
  have htw := takeWhile_all_append isDigitCode (natChars t) usc x hdig usc_not_digit
  have hmatch : Server.eventIdMatch (Server.generateEventId S t x) = true := by
    unfold Server.eventIdMatch
    rw [htake, hdrop]
    simp [htw.1, htw.2, hS1, hS2, hx2, List.isEmpty_iff, natChars_ne_nil t, hx1]
  refine ⟨hmatch, ?_⟩
  unfold Server.getStreamIdFromEventId
  rw [hmatch]
  simpa using htake

theorem lexLt_generateEventId (S : List Nat) (t1 t2 : Nat) (x1 x2 : List Nat)
    (hlt : t1 < t2) (hlen : natLen t1 = natLen t2) :
    lexLt (Server.generateEventId S t1 x1) (Server.generateEventId S t2 x2) = true := by
  have h1 : Server.generateEventId S t1 x1
      = (S ++ [usc]) ++ (natChars t1 ++ usc :: x1) := by
    unfold Server.generateEventId; simp
  have h2 : Server.generateEventId S t2 x2
      = (S ++ [usc]) ++ (natChars t2 ++ usc :: x2) := by
    unfold Server.generateEventId; simp
  rw [h1, h2, lexLt_append_same]
  exact lexLt_append_of_eqlen _ _ _ _
    (by rw [length_natChars, length_natChars, hlen])
    (lexLt_natChars _ _ hlt hlen)

theorem runAppends_events (M : Type) [DecidableEq M] (l : List (Server.AppendIn M))
    (s : Server.InMemoryEventStore M)
    (hn : ((s.events.map Prod.fst) ++ l.map Server.AppendIn.eventId).Nodup)
    (hcap : s.events.length + l.length ≤ s.maxEvents) :
    (Server.runAppends s l).events = s.events ++ l.map Server.AppendIn.entry := by
  induction l generalizing s with
  | nil => simp [Server.runAppends]
  | cons i is ih =>
    have hfresh : jsMapHas s.events i.eventId = false := by
      rcases hb : jsMapHas s.events i.eventId with _ | _
      · rfl
      · exfalso
        have hmem := (jsMapHas_iff_mem_keys _ _).mp hb
        have hdisj := List.disjoint_of_nodup_append hn
        exact hdisj hmem
          (List.mem_map.mpr ⟨i, List.mem_cons_self i is, rfl⟩)
    rcases storeEvent_fresh M s i.streamId i.message i.idNowMs i.recNowMs i.sfx hfresh
        (by simp only [List.length_cons] at hcap; omega)
      with ⟨he, hm, _, _⟩
    have hstep : Server.runAppends s (i :: is)
        = Server.runAppends (s.storeEvent i.streamId i.message i.idNowMs i.recNowMs i.sfx).1 is := by
      rfl
    rw [hstep, ih]
    · rw [he]
      simp [Server.AppendIn.entry, Server.AppendIn.eventId]
    · rw [he]
      have hre : (s.events ++ [(Server.generateEventId i.streamId i.idNowMs i.sfx,
            (⟨i.streamId, i.message, i.recNowMs⟩ : Server.EventRec M))]).map Prod.fst
          ++ is.map Server.AppendIn.eventId
          = s.events.map Prod.fst ++ (i :: is).map Server.AppendIn.eventId := by
        simp [Server.AppendIn.eventId]
      rw [hre]
      exact hn
    · rw [he, hm]
      simp only [List.length_append, List.length_cons, List.length_nil] at hcap ⊢
      omega

theorem sendLoop_skip (M : Type) [DecidableEq M] (target : List Nat)
    (pre rest : List (List Nat × Server.EventRec M))
    (h : ∀ p ∈ pre, p.1 ≠ target) :
    Server.sendLoop target (pre ++ rest) false = Server.sendLoop target rest false := by
  induction pre with
  | nil => rfl
  | cons q qs ih =>
    rcases q with ⟨eid, r⟩
    have hq : eid ≠ target := h (eid, r) (List.mem_cons_self _ _)
    simp only [List.cons_append, Server.sendLoop, if_neg hq]
    exact ih (fun p hp => h p (List.mem_cons_of_mem _ hp))

theorem sendLoop_found (M : Type) [DecidableEq M] (target : List Nat)
    (l : List (List Nat × Server.EventRec M))
    (h : ∀ p ∈ l, p.1 ≠ target) :
    Server.sendLoop target l true = l.map (fun p => (p.1, p.2.message)) := by
  induction l with
  | nil => rfl
  | cons q qs ih =>
    rcases q with ⟨eid, r⟩
    have hq : eid ≠ target := h (eid, r) (List.mem_cons_self _ _)
    simp [Server.sendLoop, hq, ih (fun p hp => h p (List.mem_cons_of_mem _ hp))]

theorem sendLoop_main (M : Type) [DecidableEq M] (target : List Nat)
    (pre post : List (List Nat × Server.EventRec M)) (e : List Nat × Server.EventRec M)
    (he : e.1 = target)
    (hpre : ∀ p ∈ pre, p.1 ≠ target) (hpost : ∀ p ∈ post, p.1 ≠ target) :
    Server.sendLoop target (pre ++ e :: post) false
      = post.map (fun p => (p.1, p.2.message)) := by
  rw [sendLoop_skip M target pre _ hpre]
  rcases e with ⟨eid, r⟩
  simp only at he
  subst he
  simp only [Server.sendLoop, if_pos rfl]
  exact sendLoop_found M eid post hpost

-- ## Claim C2: exact replay of a stream

/-- C2 counterexample: two appends to the same stream within the same
millisecond (both `Date.now()` reads yield 1700000000001; random
suffixes "zz" then "aa"). The second event's id sorts lexicographically
BEFORE the first's (`localeCompare` falls back to the random suffix
once the timestamps tie), so replaying after the FIRST appended event
delivers nothing — the event appended after it is skipped before the
cursor is found — and replaying after the SECOND (latest) event
delivers the EARLIER event. This refutes "delivers exactly the events
appended after that event, in append order" for same-millisecond
appends. -/
theorem c2_counterexample :
    (Server.runAppends (Server.InMemoryEventStore.init Nat)
        [⟨strN "aaaaaaaa-bbbb-cccc-dddd-eeeeeeeeeeee", 1, 1700000000001, 1700000000001, strN "zz"⟩,
         ⟨strN "aaaaaaaa-bbbb-cccc-dddd-eeeeeeeeeeee", 2, 1700000000001, 1700000000001, strN "aa"⟩]).replayEventsAfter
        (Server.generateEventId (strN "aaaaaaaa-bbbb-cccc-dddd-eeeeeeeeeeee")
          1700000000001 (strN "zz"))
      = (strN "aaaaaaaa-bbbb-cccc-dddd-eeeeeeeeeeee", [])
    ∧ (Server.runAppends (Server.InMemoryEventStore.init Nat)
        [⟨strN "aaaaaaaa-bbbb-cccc-dddd-eeeeeeeeeeee", 1, 1700000000001, 1700000000001, strN "zz"⟩,
         ⟨strN "aaaaaaaa-bbbb-cccc-dddd-eeeeeeeeeeee", 2, 1700000000001, 1700000000001, strN "aa"⟩]).replayEventsAfter
        (Server.generateEventId (strN "aaaaaaaa-bbbb-cccc-dddd-eeeeeeeeeeee")
          1700000000001 (strN "aa"))
      = (strN "aaaaaaaa-bbbb-cccc-dddd-eeeeeeeeeeee",
          [(Server.generateEventId (strN "aaaaaaaa-bbbb-cccc-dddd-eeeeeeeeeeee")
              1700000000001 (strN "zz"), 1)]) := by
  constructor <;> decide

/-- C2 (amended): run any sequence of `storeEvent` calls against a
fresh in-memory store and replay from the id of the k-th event of
stream `S` (0-based):
the sink receives exactly the `S`-events appended after the k-th one, in
append order, and nothing from any other stream; the returned stream id
is `S`. Environment hypotheses: `S` is UUID-shaped (36 chars of
`[a-f0-9-]`, any case); the run fits under the 10000-event cap; all
generated ids are distinct; within stream `S` the suffixes are nonempty
`[a-z0-9]/i` strings (as `Math.random().toString(36)` yields) and the
clock reads are strictly increasing with a constant decimal width (as
millisecond epoch timestamps are), which is what makes the
`localeCompare` sort reproduce append order. -/
theorem c2_replay_exact (M : Type) [DecidableEq M]
    (l : List (Server.AppendIn M)) (S : List Nat) (k : Nat)
    (hS1 : S.length = 36) (hS2 : S.all isHexDashCode = true)
    (hcap : l.length ≤ 10000)
    (hnd : (l.map Server.AppendIn.eventId).Nodup)
    (hsfx : ∀ i ∈ l.filter (fun i => decide (i.streamId = S)),
        i.sfx ≠ [] ∧ i.sfx.all isSfxCode = true)
    (hmono : (l.filter (fun i => decide (i.streamId = S))).Pairwise
        (fun i j => i.idNowMs < j.idNowMs ∧ natLen i.idNowMs = natLen j.idNowMs))
    (hk : k < (l.filter (fun i => decide (i.streamId = S))).length) :
    (Server.runAppends (Server.InMemoryEventStore.init M) l).replayEventsAfter
        ((l.filter (fun i => decide (i.streamId = S))).get ⟨k, hk⟩).eventId
      = (S, ((l.filter (fun i => decide (i.streamId = S))).drop (k + 1)).map
          (fun i => (i.eventId, i.message))) := by
  set sl := l.filter (fun i => decide (i.streamId = S)) with hsl
  set ik := sl.get ⟨k, hk⟩ with hik
  have hikmem : ik ∈ sl := List.get_mem sl k hk
  have hslS : ∀ i ∈ sl, i.streamId = S := by
    intro i hi
    have := List.of_mem_filter hi
    simpa using this
  have hev : (Server.runAppends (Server.InMemoryEventStore.init M) l).events
      = l.map Server.AppendIn.entry := by
    have h := runAppends_events M l (Server.InMemoryEventStore.init M)
      (by simpa [Server.InMemoryEventStore.init] using hnd)
      (by simpa [Server.InMemoryEventStore.init] using hcap)
    simpa [Server.InMemoryEventStore.init] using h
  have hkeys : (l.map Server.AppendIn.entry).map Prod.fst
      = l.map Server.AppendIn.eventId := by
    rw [List.map_map]
    rfl
  have hsfx_ik := hsfx ik hikmem
  have hSid : ik.eventId = Server.generateEventId S ik.idNowMs ik.sfx := by
    unfold Server.AppendIn.eventId
    rw [hslS ik hikmem]
  have hparse := getStreamId_generateEventId S ik.idNowMs ik.sfx hS1 hS2
    hsfx_ik.1 hsfx_ik.2
  have hgets : Server.getStreamIdFromEventId ik.eventId = S := by
    rw [hSid]
    exact hparse.2
  have hhas : jsMapHas (Server.runAppends (Server.InMemoryEventStore.init M) l).events
      ik.eventId = true := by
    rw [hev, jsMapHas_iff_mem_keys, hkeys]
    exact List.mem_map.mpr ⟨ik, List.mem_of_mem_filter hikmem, rfl⟩
  have htne : ik.eventId.isEmpty = false := by
    rcases hb : ik.eventId.isEmpty with _ | _
    · rfl
    · rw [hSid] at hb
      exact absurd (List.isEmpty_iff.mp hb) (generateEventId_ne_nil _ _ _)
  have hSne : S.isEmpty = false := by
    rcases hb : S.isEmpty with _ | _
    · rfl
    · rw [List.isEmpty_iff.mp hb] at hS1
      simp at hS1
  have hfentry : (l.map Server.AppendIn.entry).filter (fun e => decide (e.2.streamId = S))
      = sl.map Server.AppendIn.entry := by
    rw [List.filter_map, hsl]
    rfl
  have hndsl : (sl.map Server.AppendIn.eventId).Nodup :=
    List.Nodup.sublist (List.Sublist.map _ (List.filter_sublist l)) hnd
  have hpair : sl.Pairwise (fun i j => lexLt i.eventId j.eventId = true) := by
    refine hmono.imp_of_mem ?_
    intro i j hi hj hr
    have hie : i.eventId = Server.generateEventId S i.idNowMs i.sfx := by
      unfold Server.AppendIn.eventId
      rw [hslS i hi]
    have hje : j.eventId = Server.generateEventId S j.idNowMs j.sfx := by
      unfold Server.AppendIn.eventId
      rw [hslS j hj]
    rw [hie, hje]
    exact lexLt_generateEventId S i.idNowMs j.idNowMs i.sfx j.sfx hr.1 hr.2
  have hchain : (sl.map Server.AppendIn.entry).Chain' (fun a b => lexLt a.1 b.1 = true) := by
    rw [List.chain'_map]
    exact List.Pairwise.chain' hpair
  have hsort : sortStable (fun a b => lexLt a.1 b.1) (sl.map Server.AppendIn.entry)
      = sl.map Server.AppendIn.entry :=
    sortStable_of_chain _ (fun a b h => lexLt_asym _ _ h) _ hchain
  have hdropk : sl.drop k = ik :: sl.drop (k + 1) := by
    rw [hik, List.get_eq_getElem]
    exact List.drop_eq_getElem_cons hk
  have hdecomp : sl = sl.take k ++ ik :: sl.drop (k + 1) := by
    conv_lhs => rw [← List.take_append_drop k sl]
    rw [hdropk]
  have hnd2 : ((sl.take k).map Server.AppendIn.eventId).Nodup
      ∧ ((ik :: sl.drop (k + 1)).map Server.AppendIn.eventId).Nodup
      ∧ ((sl.take k).map Server.AppendIn.eventId).Disjoint
          ((ik :: sl.drop (k + 1)).map Server.AppendIn.eventId) := by
    have h := hndsl
    rw [hdecomp, List.map_append] at h
    exact List.nodup_append.mp h
  have hpre : ∀ p ∈ (sl.take k).map Server.AppendIn.entry, p.1 ≠ ik.eventId := by
    intro p hp
    rcases List.mem_map.mp hp with ⟨i, hi, rfl⟩
    intro hc
    have h1 : Server.AppendIn.eventId i ∈ (sl.take k).map Server.AppendIn.eventId :=
      List.mem_map.mpr ⟨i, hi, rfl⟩
    have hce : Server.AppendIn.eventId i = Server.AppendIn.eventId ik := hc
    have h2 : Server.AppendIn.eventId i
        ∈ (ik :: sl.drop (k + 1)).map Server.AppendIn.eventId := by
      rw [hce]
      exact List.mem_map.mpr ⟨ik, List.mem_cons_self _ _, rfl⟩
    exact hnd2.2.2 h1 h2
  have hpost : ∀ p ∈ (sl.drop (k + 1)).map Server.AppendIn.entry, p.1 ≠ ik.eventId := by
    intro p hp
    rcases List.mem_map.mp hp with ⟨j, hj, rfl⟩
    intro hc
    have hcons := hnd2.2.1
    rw [List.map_cons, List.nodup_cons] at hcons
    exact hcons.1 (hc ▸ List.mem_map.mpr ⟨j, hj, rfl⟩)
  have hloop : Server.sendLoop ik.eventId (sl.map Server.AppendIn.entry) false
      = (sl.drop (k + 1)).map (fun i => (i.eventId, i.message)) := by
    conv_lhs => rw [hdecomp]
    rw [List.map_append, List.map_cons]
    rw [sendLoop_main M ik.eventId _ _ _ rfl hpre hpost]
    rw [List.map_map]
    rfl
  unfold Server.InMemoryEventStore.replayEventsAfter
  rw [hhas, htne]
  simp only [Bool.not_true, Bool.or_false, Bool.or_self, if_false, Bool.false_eq_true]
  rw [hgets]
  rw [if_neg (by rw [hSne]; exact Bool.false_ne_true)]
  rw [hev, hfentry, hsort, hloop]

/-- C2 witness: three appends (two to a UUID-shaped stream, one to
another stream); replaying after the first stream event delivers exactly
the second stream event. -/
theorem c2_witness :
    (Server.runAppends (Server.InMemoryEventStore.init Nat)
        [⟨strN "aaaaaaaa-bbbb-cccc-dddd-eeeeeeeeeeee", 100, 1700000000001, 1700000000001, strN "abc"⟩,
         ⟨strN "other", 200, 1700000000002, 1700000000002, strN "zzz"⟩,
         ⟨strN "aaaaaaaa-bbbb-cccc-dddd-eeeeeeeeeeee", 300, 1700000000003, 1700000000003, strN "def"⟩]).replayEventsAfter
        (([⟨strN "aaaaaaaa-bbbb-cccc-dddd-eeeeeeeeeeee", 100, 1700000000001, 1700000000001, strN "abc"⟩,
           ⟨strN "other", 200, 1700000000002, 1700000000002, strN "zzz"⟩,
           ⟨strN "aaaaaaaa-bbbb-cccc-dddd-eeeeeeeeeeee", 300, 1700000000003, 1700000000003, strN "def"⟩] :
            List (Server.AppendIn Nat)).filter
            (fun i => decide (i.streamId = strN "aaaaaaaa-bbbb-cccc-dddd-eeeeeeeeeeee"))
          |>.get ⟨0, by decide⟩).eventId
      = (strN "aaaaaaaa-bbbb-cccc-dddd-eeeeeeeeeeee",
          ((([⟨strN "aaaaaaaa-bbbb-cccc-dddd-eeeeeeeeeeee", 100, 1700000000001, 1700000000001, strN "abc"⟩,
              ⟨strN "other", 200, 1700000000002, 1700000000002, strN "zzz"⟩,
              ⟨strN "aaaaaaaa-bbbb-cccc-dddd-eeeeeeeeeeee", 300, 1700000000003, 1700000000003, strN "def"⟩] :
               List (Server.AppendIn Nat)).filter
               (fun i => decide (i.streamId = strN "aaaaaaaa-bbbb-cccc-dddd-eeeeeeeeeeee"))).drop
              (0 + 1)).map (fun i => (i.eventId, i.message))) :=
  c2_replay_exact Nat
    [⟨strN "aaaaaaaa-bbbb-cccc-dddd-eeeeeeeeeeee", 100, 1700000000001, 1700000000001, strN "abc"⟩,
     ⟨strN "other", 200, 1700000000002, 1700000000002, strN "zzz"⟩,
     ⟨strN "aaaaaaaa-bbbb-cccc-dddd-eeeeeeeeeeee", 300, 1700000000003, 1700000000003, strN "def"⟩]
    (strN "aaaaaaaa-bbbb-cccc-dddd-eeeeeeeeeeee") 0
    (by decide) (by decide) (by decide) (by decide) (by decide) (by decide) (by decide)
